import Mathlib

/-!
Verification development for the AEI experimental engine core.

The Python modules under `experimental_ai/` are embedded shallowly:
pure functions become Lean functions over rationals (machine floats are
modelled as `ℚ`, with `Score` adding the two IEEE infinities used by the
evaluator), and the effectful parts (the monotonic clock, the random
move generator) are modelled as explicit oracle streams consumed index
by index, exactly at the program points where the source reads them.

The board library (`pyrimaa.board`) is part of the repository but its
source is not available here; the specification treats it as an external
interface.  Its primitives are modelled from the spec: a `Pos` carries
the per-piece bitboards, per-colour placement boards, a frozen-square
bitboard, the per-colour legal-step counts and the terminal-state flag
as oracle fields, and `Gen` carries the legal-move enumeration and the
random-move sampling stream.
-/

/-- Modelled from the spec: one full move is an ordered sequence of
(from-square, to-square) pairs over the 64-square board (spec §3). -/
abbrev Steps := List (ℕ × ℕ)

/-- Modelled from the spec: the board library's immutable position value
(spec §3, §6).  Board state observable through the external interface is
carried as fields: per-piece-code bitboards (codes 0 = EMPTY, 1..6 gold
rabbit..elephant, 9..14 silver rabbit..elephant), per-colour placement
bitboards, the set of frozen squares as a bitboard, the number of legal
atomic steps each colour would have if it were to move, and the
terminal-state result (1 gold win, -1 silver win, 0 not terminal). -/
structure Pos where
  color : ℕ
  stepsLeft : ℕ
  bitBoards : ℕ → ℕ
  placement : ℕ → ℕ
  frozen : ℕ
  legalStepCount : ℕ → ℕ
  endState : ℤ

/-- Modelled from the spec: the external move generator interface
(spec §6): `moves` is the full enumeration of legal moves as
(resulting position, steps) pairs in enumeration order, and `sample`
is the stream of successive uniformly-random legal-move draws
(`get_rnd_step_move`), `none` signalling an immobilized position. -/
structure Gen where
  moves : List (Pos × Steps)
  sample : ℕ → Option (Steps × Pos)

/-- Population count of a 64-bit board word. -/
def popcount (n : ℕ) : ℕ := ((List.range 64).filter (fun i => n.testBit i)).length

/-- Indices of the set bits of a 64-bit board word, ascending
(the order `_iter_bits` yields them in the source). -/
def bitIndices (n : ℕ) : List ℕ := (List.range 64).filter (fun i => n.testBit i)

/-- Mirrors `_bit_to_index`: index of a single-bit mask, 0 for 0. -/
def bit_to_index (b : ℕ) : ℕ := if b ≠ 0 then b.size - 1 else 0

/-- Modelled from the spec: orthogonal-adjacency expansion of a
bitboard on the 8x8 board (`pyrimaa.board.neighbors_of`). -/
def neighbors_of (bits : ℕ) : ℕ :=
  let notAFile : ℕ := 0xfefefefefefefefe
  let notHFile : ℕ := 0x7f7f7f7f7f7f7f7f
  let full : ℕ := 0xffffffffffffffff
  ((bits &&& notAFile) >>> 1) ||| ((bits &&& notHFile) <<< 1) |||
    (bits >>> 8) ||| ((bits <<< 8) &&& full)

/-- Modelled from the spec: per-square piece lookup (spec §6(c)).
Returns the code of the piece whose bitboard contains the given
single-bit mask, or 0 (EMPTY) if no piece board contains it. -/
def piece_at (pos : Pos) (bit : ℕ) : ℕ :=
  match ([1, 2, 3, 4, 5, 6, 9, 10, 11, 12, 13, 14].find?
      (fun p => pos.bitBoards p &&& bit ≠ 0)) with
  | some p => p
  | none => 0

/-- Modelled from the spec: per-square immobilization test
(spec §6(d)), reading the oracle bitboard of frozen squares. -/
def is_frozen_at (pos : Pos) (bit : ℕ) : Bool := pos.frozen &&& bit ≠ 0

/-- Modelled from the spec: the four fixed capture-trap squares
c3, f3, c6, f6 as single-bit masks (indices 18, 21, 42, 45). -/
def TRAP_BITS : List ℕ := [2 ^ 18, 2 ^ 21, 2 ^ 42, 2 ^ 45]

/-- Scalar score produced by the evaluator: a finite rational or one of
the two IEEE infinities the source uses for terminal positions. -/
inductive Score where
  | ninf : Score
  | val : ℚ → Score
  | pinf : Score
deriving DecidableEq, Repr

/-- IEEE negation on scores. -/
def Score.neg : Score → Score
  | .ninf => .pinf
  | .val q => .val (-q)
  | .pinf => .ninf

/-- IEEE subtraction of a finite amount from a score
(infinities absorb the subtraction). -/
def Score.sub : Score → ℚ → Score
  | .ninf, _ => .ninf
  | .val q, p => .val (q - p)
  | .pinf, _ => .pinf

/-- IEEE strict comparison on scores (`ninf < ninf` is false). -/
def Score.blt : Score → Score → Bool
  | .ninf, .ninf => false
  | .ninf, .val _ => true
  | .ninf, .pinf => true
  | .val _, .ninf => false
  | .val a, .val b => decide (a < b)
  | .val _, .pinf => true
  | .pinf, _ => false

/-- IEEE non-strict comparison on scores. -/
def Score.ble : Score → Score → Bool
  | .ninf, _ => true
  | .val _, .ninf => false
  | .val a, .val b => decide (a ≤ b)
  | .val _, .pinf => true
  | .pinf, .ninf => false
  | .pinf, .val _ => false
  | .pinf, .pinf => true

/-- Mirrors `_piece_value_by_rank`: classic material weights keyed by
decoloured piece code. -/
def piece_value_by_rank (piece_rank : ℕ) : ℚ :=
  if piece_rank = 1 then 1
  else if piece_rank = 2 then 2
  else if piece_rank = 3 then 3
  else if piece_rank = 4 then 5
  else if piece_rank = 5 then 9
  else if piece_rank = 6 then 14
  else 0

/-- Mirrors `feature_material_counts`: piece values times counts for
gold minus silver, negated for the silver perspective. -/
def feature_material_counts (pos : Pos) (perspective : ℕ) : ℚ :=
  let gold := ([1, 2, 3, 4, 5, 6].map
    (fun p => piece_value_by_rank p * (popcount (pos.bitBoards p) : ℚ))).sum
  let silver := ([9, 10, 11, 12, 13, 14].map
    (fun p => piece_value_by_rank (p % 8) * (popcount (pos.bitBoards p) : ℚ))).sum
  let score_for_gold := gold - silver
  if perspective = 0 then score_for_gold else -score_for_gold

/-- Mirrors `_trap_defenders`: same-colour pieces adjacent to a trap. -/
def trap_defenders (pos : Pos) (trap_bit : ℕ) (color : ℕ) : ℕ :=
  popcount (neighbors_of trap_bit &&& pos.placement color)

/-- Mirrors `_trap_attackers`: enemy pieces adjacent to a trap. -/
def trap_attackers (pos : Pos) (trap_bit : ℕ) (color : ℕ) : ℕ :=
  popcount (neighbors_of trap_bit &&& pos.placement (color ^^^ 1))

/-- Per-trap contribution of `feature_trap_control_and_danger`,
written from gold's point of view exactly as in the source loop body. -/
def trap_term (pos : Pos) (trap : ℕ) : ℚ :=
  let g_def := trap_defenders pos trap 0
  let s_def := trap_defenders pos trap 1
  let g_att := trap_attackers pos trap 0
  let s_att := trap_attackers pos trap 1
  let g_adj := popcount (neighbors_of trap &&& pos.placement 0)
  let s_adj := popcount (neighbors_of trap &&& pos.placement 1)
  (35 / 100 : ℚ) * (((g_def : ℚ) - g_att) - ((s_def : ℚ) - s_att))
    - (50 / 100 : ℚ) * (max 0 ((g_adj : ℤ) - 2 * g_def) : ℤ)
    + (50 / 100 : ℚ) * (max 0 ((s_adj : ℤ) - 2 * s_def) : ℤ)
    - (if pos.placement 0 &&& trap ≠ 0 then (125 / 100 : ℚ) * (max 0 (1 - (g_def : ℤ)) : ℤ) else 0)
    + (if pos.placement 1 &&& trap ≠ 0 then (125 / 100 : ℚ) * (max 0 (1 - (s_def : ℤ)) : ℤ) else 0)

/-- Mirrors `feature_trap_control_and_danger`: trap control and danger
summed over the four traps, negated for the silver perspective. -/
def feature_trap_control_and_danger (pos : Pos) (perspective : ℕ) : ℚ :=
  let score_for_gold := (TRAP_BITS.map (trap_term pos)).sum
  if perspective = 0 then score_for_gold else -score_for_gold

/-- Mirrors `_IMPORTANT_RANK_MULT`: immobility weight per piece rank. -/
def important_rank_mult (rank : ℕ) : ℚ :=
  if rank = 1 then 6 / 10
  else if rank = 2 then 1
  else if rank = 3 then 1
  else if rank = 4 then 16 / 10
  else if rank = 5 then 2
  else if rank = 6 then 25 / 10
  else 1

/-- Mirrors `_frozen_weight_sum`: weighted count of a colour's frozen
pieces. -/
def frozen_weight_sum (pos : Pos) (color : ℕ) : ℚ :=
  let pcbit := color <<< 3
  (([1, 2, 3, 4, 5, 6] : List ℕ).map (fun rank =>
    let bits := pos.bitBoards (rank ||| pcbit)
    ((bitIndices bits).map (fun i =>
      if is_frozen_at pos (2 ^ i) then important_rank_mult rank else 0)).sum)).sum

/-- Mirrors `feature_frozen_pieces`: net frozen weight, opponent's
frozen pieces counting in the perspective's favour. -/
def feature_frozen_pieces (pos : Pos) (perspective : ℕ) : ℚ :=
  let g := frozen_weight_sum pos 0
  let s := frozen_weight_sum pos 1
  let score_for_gold := s - g
  if perspective = 0 then score_for_gold else -score_for_gold

/-- Mirrors `feature_mobility`: exact legal-step difference when
`use_legal_steps` is set (the step counts of the two null-turn
positions are the oracle field `legalStepCount`), else the cheap
empty-adjacency difference. -/
def feature_mobility (pos : Pos) (perspective : ℕ) (use_legal_steps : Bool) : ℚ :=
  if use_legal_steps then
    let score_for_gold := (pos.legalStepCount 0 : ℚ) - (pos.legalStepCount 1 : ℚ)
    if perspective = 0 then score_for_gold else -score_for_gold
  else
    let empty := pos.bitBoards 0
    let g_mob := popcount (neighbors_of (pos.placement 0) &&& empty)
    let s_mob := popcount (neighbors_of (pos.placement 1) &&& empty)
    let score_for_gold := (g_mob : ℚ) - (s_mob : ℚ)
    if perspective = 0 then score_for_gold else -score_for_gold

/-- Mirrors `_rabbit_advancement_sum`: summed rank progress of a
colour's rabbits toward its goal line. -/
def rabbit_advancement_sum (pos : Pos) (color : ℕ) : ℚ :=
  let rabbit_piece := if color = 0 then 1 else 9
  let bits := pos.bitBoards rabbit_piece
  ((bitIndices bits).map (fun ix =>
    let r := ix / 8
    ((if color = 0 then r else 7 - r : ℕ) : ℚ))).sum

/-- Mirrors `feature_rabbit_advancement`: net rabbit progress. -/
def feature_rabbit_advancement (pos : Pos) (perspective : ℕ) : ℚ :=
  let g := rabbit_advancement_sum pos 0
  let s := rabbit_advancement_sum pos 1
  let score_for_gold := g - s
  if perspective = 0 then score_for_gold else -score_for_gold

/-- Mirrors `_count_near_goal_threats`: unfrozen rabbits one rank from
promotion with an empty square ahead. -/
def count_near_goal_threats (pos : Pos) (color : ℕ) : ℕ :=
  let rabbit_piece := if color = 0 then 1 else 9
  let rabbits := pos.bitBoards rabbit_piece
  let empty := pos.bitBoards 0
  let forward_delta : ℤ := if color = 0 then 8 else -8
  let target_rank := if color = 0 then 6 else 1
  ((bitIndices rabbits).filter (fun (ix : ℕ) =>
    decide (ix / 8 = target_rank) && ! is_frozen_at pos (2 ^ ix) &&
      (let fwd : ℤ := (ix : ℤ) + forward_delta
       decide (0 ≤ fwd) && decide (fwd < 64) && empty.testBit fwd.toNat))).length

/-- Mirrors `feature_immediate_goal_threats`: net near-goal threats. -/
def feature_immediate_goal_threats (pos : Pos) (perspective : ℕ) : ℚ :=
  let g := count_near_goal_threats pos 0
  let s := count_near_goal_threats pos 1
  let score_for_gold := (g : ℚ) - (s : ℚ)
  if perspective = 0 then score_for_gold else -score_for_gold

/-- Mirrors `EvalWeights`: the fixed-shape record of feature weights. -/
structure EvalWeights where
  material : ℚ
  trap : ℚ
  frozen : ℚ
  mobility : ℚ
  rabbits : ℚ
  goal_threat : ℚ
deriving DecidableEq, Repr

/-- Mirrors `DEFAULT_WEIGHTS`. -/
def DEFAULT_WEIGHTS : EvalWeights :=
  ⟨1, 13 / 10, 9 / 10, 8 / 100, 12 / 100, 175 / 100⟩

/-- Mirrors `evaluate_position`: terminal shortcut to the infinities,
otherwise the weighted linear combination of the six features. -/
def evaluate_position (pos : Pos) (perspective : ℕ) (weights : EvalWeights)
    (legal_mobility : Bool) : Score :=
  if pos.endState ≠ 0 then
    let winner_color := if pos.endState = 1 then 0 else 1
    if winner_color = perspective then Score.pinf else Score.ninf
  else
    Score.val
      (weights.material * feature_material_counts pos perspective
        + weights.trap * feature_trap_control_and_danger pos perspective
        + weights.frozen * feature_frozen_pieces pos perspective
        + weights.mobility * feature_mobility pos perspective legal_mobility
        + weights.rabbits * feature_rabbit_advancement pos perspective
        + weights.goal_threat * feature_immediate_goal_threats pos perspective)

/-- Mirrors `score_move`: evaluation of the resulting position from the
mover's perspective (expensive mobility, the source's default), with
the small step-count shaping penalty when steps are supplied. -/
def score_move (from_pos to_pos : Pos) (steps : Option Steps)
    (perspective : Option ℕ) (weights : EvalWeights) : Score :=
  let persp := match perspective with | none => from_pos.color | some p => p
  let base := evaluate_position to_pos persp weights true
  match steps with
  | none => base
  | some st => base.sub ((1 / 100 : ℚ) * max 0 (4 - (st.length : ℚ)))

/-- Mirrors `FilterLimits`: non-time limits of the reducer. -/
structure FilterLimits where
  max_attempts : ℕ
  fallback_to_unfiltered : Bool
deriving DecidableEq, Repr

/-- Mirrors `_matches_constraints`: every step's from and to squares
must lie in `only_squares` when given, and the piece at the step's
from-square in the original position must be non-EMPTY and a member of
`only_pieces` when given. -/
def matches_constraints (from_pos : Pos) (steps : Steps)
    (only_pieces only_squares : Option (List ℕ)) : Bool :=
  if only_pieces = none ∧ only_squares = none then true
  else steps.all (fun ft =>
    (match only_squares with
     | none => true
     | some sq => decide (ft.1 ∈ sq) && decide (ft.2 ∈ sq)) &&
    (match only_pieces with
     | none => true
     | some ps =>
       let p := piece_at from_pos (2 ^ ft.1)
       ! decide (p = 0) && decide (p ∈ ps)))

/-- Outcome tag (ghost instrumentation) of one `get_filtered_move`
call: generator reported immobilization, a constraint-matching move was
found, the attempt/deadline budget ran out and the unfiltered fallback
was returned, or the budget ran out and nothing was returned. -/
inductive GfmTag where
  | immobilized : GfmTag
  | matched : GfmTag
  | fallback : GfmTag
  | nomatch : GfmTag
deriving DecidableEq, Repr

/-- Result of one `get_filtered_move` call: the returned pair, the
clock and sampler stream indices after the call, and (ghost) the list
of successful draws in order plus the outcome tag. -/
structure GfmRes where
  steps : Option Steps
  res : Pos
  t : ℕ
  s : ℕ
  sampled : List (Steps × Pos)
  tag : GfmTag

/-- The post-loop fallback policy of `get_filtered_move`: return the
last sampled (unconstrained) legal move if `fallback_to_unfiltered` is
set and something was sampled, else return `(none, pos)`. -/
def gfm_exhaust (pos : Pos) (limits : FilterLimits) (t s : ℕ)
    (acc : List (Steps × Pos)) : GfmRes :=
  if limits.fallback_to_unfiltered then
    match acc.getLast? with
    | some l => ⟨some l.1, l.2, t, s, acc, .fallback⟩
    | none => ⟨none, pos, t, s, acc, .nomatch⟩
  else ⟨none, pos, t, s, acc, .nomatch⟩

/-- The rejection-sampling loop of `get_filtered_move`: before each
attempt check the clock against the deadline, then draw one random
legal move, record it as the last sample, and return it if it matches
the constraints. -/
def gfm_loop (gen : Gen) (clock : ℕ → ℚ) (pos : Pos) (deadline : ℚ)
    (only_pieces only_squares : Option (List ℕ)) (limits : FilterLimits) :
    ℕ → ℕ → ℕ → List (Steps × Pos) → GfmRes
  | 0, t, s, acc => gfm_exhaust pos limits t s acc
  | Nat.succ n, t, s, acc =>
    if deadline ≤ clock t then gfm_exhaust pos limits (t + 1) s acc
    else
      match gen.sample s with
      | none => ⟨none, pos, t + 1, s + 1, acc, .immobilized⟩
      | some (st, r) =>
        if matches_constraints pos st only_pieces only_squares then
          ⟨some st, r, t + 1, s + 1, acc ++ [(st, r)], .matched⟩
        else gfm_loop gen clock pos deadline only_pieces only_squares limits
          n (t + 1) (s + 1) (acc ++ [(st, r)])

/-- The body of `get_filtered_move` once an absolute deadline is in
hand: at most `max(1, max_attempts)` sampling attempts. -/
def get_filtered_move_run (gen : Gen) (clock : ℕ → ℚ) (pos : Pos)
    (deadline : ℚ) (only_pieces only_squares : Option (List ℕ))
    (limits : FilterLimits) (t s : ℕ) : GfmRes :=
  gfm_loop gen clock pos deadline only_pieces only_squares limits
    (max 1 limits.max_attempts) t s []

/-- Mirrors `get_filtered_move` including its input validation:
exactly one of a relative time budget or an absolute deadline must be
supplied (`none` models the raised `ValueError`); a relative budget is
converted to an absolute deadline by one clock read. -/
def get_filtered_move (gen : Gen) (clock : ℕ → ℚ) (pos : Pos)
    (time_budget_s deadline : Option ℚ)
    (only_pieces only_squares : Option (List ℕ)) (limits : FilterLimits)
    (t s : ℕ) : Option GfmRes :=
  match time_budget_s, deadline with
  | none, none => none
  | some _, some _ => none
  | none, some d =>
    some (get_filtered_move_run gen clock pos d only_pieces only_squares limits t s)
  | some b, none =>
    some (get_filtered_move_run gen clock pos (clock t + max 0 b)
      only_pieces only_squares limits (t + 1) s)

/-- Mirrors `MoveConstraints`: optional allowed-piece and
allowed-square sets (sets are represented as lists, membership only). -/
structure MoveConstraints where
  only_pieces : Option (List ℕ)
  only_squares : Option (List ℕ)
deriving DecidableEq, Repr

/-- Mirrors `_trap_region_square_indices`: trap squares and their
adjacent squares. -/
def trap_region_square_indices : List ℕ :=
  (TRAP_BITS.map (fun trap_bit =>
    bit_to_index trap_bit ::
      (bitIndices (neighbors_of trap_bit)).map (fun i => i))).flatten

/-- Mirrors `_goal_region_square_indices`: the two ranks nearest the
opponent's goal line for the side to move. -/
def goal_region_square_indices (side_to_move : ℕ) : List ℕ :=
  let ranks : List ℕ := if side_to_move = 0 then [6, 7] else [0, 1]
  (ranks.map (fun r => (List.range 8).map (fun f => r * 8 + f))).flatten

/-- Mirrors `_big_pieces`: elephant, camel and horse codes for the side
to move. -/
def big_pieces (side_to_move : ℕ) : List ℕ :=
  if side_to_move = 0 then [6, 5, 4] else [14, 13, 12]

/-- Mirrors `build_constraint_buckets`: catch-all first, then the
big-piece, trap-region and goal-region biased buckets. -/
def build_constraint_buckets (pos : Pos) : List MoveConstraints :=
  [⟨none, none⟩,
   ⟨some (big_pieces pos.color), none⟩,
   ⟨none, some trap_region_square_indices⟩,
   ⟨none, some (goal_region_square_indices pos.color)⟩]

/-- Mirrors `PickerConfig` (the tie-breaking rng is modelled by an
explicit choice-index oracle passed to the run). -/
structure PickerConfig where
  max_attempts_per_bucket : ℕ
  random_ties : Bool
deriving DecidableEq, Repr

/-- The default `PickerConfig()` of the source. -/
def defaultPickerConfig : PickerConfig := ⟨96, true⟩

/-- The best-so-far update shared verbatim by the picker, the glue
selector and the two-stage selector: replace the best set on a strictly
greater score, append on an exactly equal score, ignore otherwise. -/
def bestStep (acc : Score × List (Steps × Pos)) (s : Score) (st : Steps)
    (r : Pos) : Score × List (Steps × Pos) :=
  if Score.blt acc.1 s then (s, [(st, r)])
  else if s = acc.1 then (acc.1, acc.2 ++ [(st, r)])
  else acc

/-- Folding `bestStep` over a fully materialized scored list (the shape
used by the two-stage selector's stage 2). -/
def bestFold (l : List (Score × Steps × Pos)) : Score × List (Steps × Pos) :=
  l.foldl (fun acc x => bestStep acc x.1 x.2.1 x.2.2) (Score.ninf, [])

/-- The final tie resolution shared by picker, glue and selector:
a random member (the choice-index oracle) when random ties are enabled
and more than one move is equal-best, else the first member. -/
def pickTie (random_ties : Bool) (tieIx : ℕ) (b0 : Steps × Pos)
    (best : List (Steps × Pos)) : Steps × Pos :=
  if random_ties ∧ 1 < best.length then best.getD (tieIx % best.length) b0
  else b0

/-- Outcome tag (ghost) of one `pick_move_anytime` call. -/
inductive PickTag where
  | immobilized : PickTag
  | fromBest : PickTag
  | defMove : PickTag
  | defNone : PickTag
  | noDeadline : PickTag
  | noDeadlineImmobilized : PickTag
deriving DecidableEq, Repr

/-- Result of one `pick_move_anytime` call: the returned pair, the
stream indices after the call, and ghost instrumentation: the list of
scored candidates, the sampled list of the reducer call that produced
the returned value (empty for the best-set path), and the outcome tag. -/
structure PickRes where
  steps : Option Steps
  res : Pos
  t : ℕ
  s : ℕ
  scored : List (Score × Steps × Pos)
  lastCall : List (Steps × Pos)
  tag : PickTag

/-- The code after `pick_move_anytime`'s sampling loop: if nothing was
ever scored, one last unconstrained reducer call with attempt cap 8,
else the final pick from the equal-best set. -/
def pma_finish (gen : Gen) (clock : ℕ → ℚ) (pos : Pos) (deadline : ℚ)
    (cfg : PickerConfig) (tieIx t s : ℕ)
    (g : List (Score × Steps × Pos)) : List (Steps × Pos) → PickRes
  | [] =>
    let r := get_filtered_move_run gen clock pos deadline none none ⟨8, true⟩ t s
    match r.steps with
    | none => ⟨none, pos, r.t, r.s, g, r.sampled, .defNone⟩
    | some st => ⟨some st, r.res, r.t, r.s, g, r.sampled, .defMove⟩
  | b0 :: rest =>
    let m := pickTie cfg.random_ties tieIx b0 (b0 :: rest)
    ⟨some m.1, m.2, t, s, g, [], .fromBest⟩

/-- The deadline-mode sampling loop of `pick_move_anytime`: while the
clock is before the deadline, take the next constraint bucket
round-robin, draw via the reducer with the unfiltered fallback enabled,
short-circuit on immobilization, score the candidate, update the
best-so-far set, and re-check the deadline after scoring.  `fuel`
bounds the number of iterations the oracle streams are consulted for;
`none` means the loop was still running when fuel ran out (or a bucket
index was out of range, the source's crash on an empty bucket list). -/
def pma_loop (gen : Gen) (clock : ℕ → ℚ) (score_fn : Pos → Steps → Score)
    (pos : Pos) (deadline : ℚ) (buckets : List MoveConstraints)
    (cfg : PickerConfig) (tieIx : ℕ) :
    ℕ → ℕ → ℕ → ℕ → Score → List (Steps × Pos) →
      List (Score × Steps × Pos) → Option PickRes
  | 0, _, _, _, _, _, _ => none
  | Nat.succ fuel, bi, t, s, bs, best, g =>
    if deadline ≤ clock t then
      some (pma_finish gen clock pos deadline cfg tieIx (t + 1) s g best)
    else
      match buckets[bi]? with
      | none => none
      | some c =>
        let r := get_filtered_move_run gen clock pos deadline
          c.only_pieces c.only_squares
          ⟨max 1 cfg.max_attempts_per_bucket, true⟩ (t + 1) s
        match r.steps with
        | none => some ⟨none, pos, r.t, r.s, g, r.sampled, .immobilized⟩
        | some st =>
          let sc := score_fn r.res st
          let acc := bestStep (bs, best) sc st r.res
          let g2 := g ++ [(sc, st, r.res)]
          if deadline ≤ clock r.t then
            some (pma_finish gen clock pos deadline cfg tieIx (r.t + 1) r.s g2 acc.2)
          else
            pma_loop gen clock score_fn pos deadline buckets cfg tieIx
              fuel ((bi + 1) % max 1 buckets.length) (r.t + 1) r.s acc.1 acc.2 g2

/-- Mirrors `pick_move_anytime`: a single random legal move in
no-deadline mode, else the bucket round-robin sampling loop starting
from the caller-supplied buckets or the built default buckets. -/
def pick_move_anytime (gen : Gen) (clock : ℕ → ℚ)
    (score_fn : Pos → Steps → Score) (pos : Pos) (deadline : Option ℚ)
    (cfg : PickerConfig) (bucketsOpt : Option (List MoveConstraints))
    (fuel tieIx t s : ℕ) : Option PickRes :=
  match deadline with
  | none =>
    match gen.sample s with
    | none => some ⟨none, pos, t, s + 1, [], [], .noDeadlineImmobilized⟩
    | some (st, r) => some ⟨some st, r, t, s + 1, [], [], .noDeadline⟩
  | some d =>
    let buckets := match bucketsOpt with
      | none => build_constraint_buckets pos
      | some bs => bs
    pma_loop gen clock score_fn pos d buckets cfg tieIx fuel 0 t s Score.ninf [] []

/-- Mirrors `GlueConfig` (the tie rng is the choice-index oracle;
`legal_mobility` is carried but, as in the source, not wired through). -/
structure GlueConfig where
  weights : EvalWeights
  perspective : Option ℕ
  legal_mobility : Bool
  random_ties : Bool
deriving DecidableEq, Repr

/-- The default `GlueConfig()` of the source. -/
def defaultGlueConfig : GlueConfig := ⟨DEFAULT_WEIGHTS, none, false, true⟩

/-- Result of one `get_eval_step_move` call: the returned pair, the
clock index after the call, and (ghost) the scored candidates. -/
structure GlueRes where
  steps : Option Steps
  res : Pos
  t : ℕ
  scored : List (Score × Steps × Pos)

/-- The enumeration loop of `get_eval_step_move`: for each enumerated
(result position, steps) pair, check the deadline before and after
scoring (no clock is read when no deadline is given), score with
`score_move`, and update the best-so-far set.  Returns the loop-exit
state (clock index, best score, best set, ghost scored list). -/
def glue_loop (clock : ℕ → ℚ) (from_pos : Pos) (persp : ℕ)
    (w : EvalWeights) (deadline : Option ℚ) :
    List (Pos × Steps) → ℕ → Score → List (Steps × Pos) →
      List (Score × Steps × Pos) →
      ℕ × Score × List (Steps × Pos) × List (Score × Steps × Pos)
  | [], t, bs, best, g => (t, bs, best, g)
  | (r, st) :: rest, t, bs, best, g =>
    match deadline with
    | some d =>
      if d ≤ clock t then (t + 1, bs, best, g)
      else
        let sc := score_move from_pos r (some st) (some persp) w
        let acc := bestStep (bs, best) sc st r
        let g2 := g ++ [(sc, st, r)]
        if d ≤ clock (t + 1) then (t + 2, acc.1, acc.2, g2)
        else glue_loop clock from_pos persp w deadline rest (t + 2) acc.1 acc.2 g2
    | none =>
      let sc := score_move from_pos r (some st) (some persp) w
      let acc := bestStep (bs, best) sc st r
      let g2 := g ++ [(sc, st, r)]
      glue_loop clock from_pos persp w deadline rest t acc.1 acc.2 g2

/-- Mirrors `get_eval_step_move`: enumerate all legal moves (`none` for
an immobilized position), score them best-so-far under the optional
deadline, fall back deterministically to the first enumerated move when
nothing was scored, and resolve ties like the picker. -/
def get_eval_step_move (moves : List (Pos × Steps)) (clock : ℕ → ℚ)
    (cfg : GlueConfig) (pos : Pos) (deadline : Option ℚ)
    (tieIx t : ℕ) : GlueRes :=
  match moves with
  | [] => ⟨none, pos, t, []⟩
  | m0 :: _ =>
    let persp := match cfg.perspective with | none => pos.color | some p => p
    let out := glue_loop clock pos persp cfg.weights deadline moves t Score.ninf [] []
    match out.2.2.1 with
    | [] => ⟨some m0.2, m0.1, out.1, out.2.2.2⟩
    | b0 :: rest =>
      let m := pickTie cfg.random_ties tieIx b0 (b0 :: rest)
      ⟨some m.1, m.2, out.1, out.2.2.2⟩

/-- Mirrors `TwoStageConfig` (rng modelled by the sampling function and
the choice-index oracle of the run). -/
structure TwoStageConfig where
  weights : EvalWeights
  perspective : Option ℕ
  max_stage1_moves : ℕ
  stage1_top_k : ℕ
  stage2_top_k : ℕ
  stage1_legal_mobility : Bool
  stage2_legal_mobility : Bool
  random_ties : Bool

/-- Mirrors `_step_shaping_penalty`. -/
def step_shaping_penalty (steps : Steps) : ℚ :=
  (1 / 100 : ℚ) * max 0 (4 - (steps.length : ℚ))

/-- Insertion into a descending-sorted list, after any equal keys:
the stable descending sort used to model Python's
`scored1.sort(key, reverse=True)`. -/
def insertDescBy (x : Score × Pos × Steps) :
    List (Score × Pos × Steps) → List (Score × Pos × Steps)
  | [] => [x]
  | y :: ys => if Score.blt y.1 x.1 then x :: y :: ys else y :: insertDescBy x ys

/-- Stable descending sort by score (ties keep original order). -/
def sortDescBy (l : List (Score × Pos × Steps)) : List (Score × Pos × Steps) :=
  l.foldl (fun acc x => insertDescBy x acc) []

/-- Stage 1 of `select_best_move_two_stage`: optional subsample when
the pool exceeds `max_stage1_moves` (the rng draw is the `sampleFn`
oracle), cheap scoring of every pool member with the step-shaping
penalty, and the stable descending sort. -/
def two_stage_stage1 (from_pos : Pos) (moves : List (Pos × Steps))
    (cfg : TwoStageConfig)
    (sampleFn : List (Pos × Steps) → ℕ → List (Pos × Steps)) :
    List (Score × Pos × Steps) :=
  let persp := match cfg.perspective with | none => from_pos.color | some p => p
  let stage1_pool :=
    if 0 < cfg.max_stage1_moves ∧ cfg.max_stage1_moves < moves.length then
      sampleFn moves cfg.max_stage1_moves
    else moves
  sortDescBy (stage1_pool.map (fun m =>
    ((evaluate_position m.1 persp cfg.weights cfg.stage1_legal_mobility).sub
        (step_shaping_penalty m.2), m.1, m.2)))

/-- The shortlist the source actually re-scores in stage 2: the
`stage2_top_k` prefix of the `stage1_top_k` prefix of the stage-1
ranking (both truncations happen before any expensive scoring). -/
def two_stage_shortlist2 (from_pos : Pos) (moves : List (Pos × Steps))
    (cfg : TwoStageConfig)
    (sampleFn : List (Pos × Steps) → ℕ → List (Pos × Steps)) :
    List (Score × Pos × Steps) :=
  ((two_stage_stage1 from_pos moves cfg sampleFn).take
    (max 1 cfg.stage1_top_k)).take (max 1 cfg.stage2_top_k)

/-- The expensive stage-2 score of one shortlist entry. -/
def two_stage_slow_score (from_pos : Pos) (cfg : TwoStageConfig)
    (x : Score × Pos × Steps) : Score :=
  let persp := match cfg.perspective with | none => from_pos.color | some p => p
  (evaluate_position x.2.1 persp cfg.weights cfg.stage2_legal_mobility).sub
    (step_shaping_penalty x.2.2)

/-- Mirrors `select_best_move_two_stage`: stage 1 ranking, truncation
to the stage-2 shortlist, expensive re-scoring of that shortlist with
best-so-far tracking, and the shared tie resolution. -/
def select_best_move_two_stage (from_pos : Pos) (moves : List (Pos × Steps))
    (cfg : TwoStageConfig)
    (sampleFn : List (Pos × Steps) → ℕ → List (Pos × Steps))
    (tieIx : ℕ) : Option Steps × Pos :=
  match moves with
  | [] => (none, from_pos)
  | _ :: _ =>
    let shortlist2 := two_stage_shortlist2 from_pos moves cfg sampleFn
    let out := bestFold (shortlist2.map (fun x =>
      (two_stage_slow_score from_pos cfg x, x.2.2, x.2.1)))
    match out.2 with
    | [] => (none, from_pos)
    | b0 :: rest =>
      let m := pickTie cfg.random_ties tieIx b0 (b0 :: rest)
      (some m.1, m.2)

/-- The two-stage procedure as claim C5 words it: stage 2 re-scores
every member of the full top-K stage-1 shortlist with the expensive
evaluation, ranks those re-scores descending, keeps the top-K' of them,
and takes the final pick from that stage-2 ranking. -/
def select_best_move_two_stage_claim (from_pos : Pos)
    (moves : List (Pos × Steps)) (cfg : TwoStageConfig)
    (sampleFn : List (Pos × Steps) → ℕ → List (Pos × Steps))
    (tieIx : ℕ) : Option Steps × Pos :=
  match moves with
  | [] => (none, from_pos)
  | _ :: _ =>
    let shortlist1 := (two_stage_stage1 from_pos moves cfg sampleFn).take
      (max 1 cfg.stage1_top_k)
    let ranking2 := (sortDescBy (shortlist1.map (fun x =>
      (two_stage_slow_score from_pos cfg x, x.2.1, x.2.2)))).take
      (max 1 cfg.stage2_top_k)
    let out := bestFold (ranking2.map (fun x => (x.1, x.2.2, x.2.1)))
    match out.2 with
    | [] => (none, from_pos)
    | b0 :: rest =>
      let m := pickTie cfg.random_ties tieIx b0 (b0 :: rest)
      (some m.1, m.2)

/-- Modelled from the spec: the blank setup-state position
`Position(Color.GOLD, 4, BLANK_BOARD)` the engine resets to on
`newgame` — gold to move, 4 steps, every square empty, nothing frozen,
no legal steps for either side, not terminal. -/
def startPos : Pos :=
  ⟨0, 4, fun p => if p = 0 then 0xffffffffffffffff else 0,
    fun _ => 0, 0, fun _ => 0, 0⟩

/-- The engine session state owned by `AEIEngine`: option flags, the
time-control parameters, the per-side reserves, the current position
and the setup flag. -/
structure EngState where
  strict_checks : Bool
  move_delay : Option ℚ
  total_move_time : ℚ
  tc_move_s : Option ℚ
  tc_turntime_s : Option ℚ
  reserve_gold : ℚ
  reserve_silver : ℚ
  position : Pos
  insetup : Bool

/-- Mirrors `AEIEngine.newgame`: reset the position to the blank setup
state, re-enter setup, zero both reserves; deliberately leave the
time-control parameters untouched. -/
def AEIEngine.newgame (st : EngState) : EngState :=
  { st with position := startPos, insetup := true,
            reserve_gold := 0, reserve_silver := 0 }

/-- Mirrors `AEIEngine._compute_budget_s` (after the caller-side
reserve lookup `reserve_s.get(side, 0.0)` has produced `r`): no budget
without a configured increment, else increment plus a reserve-derived
extra, the extra clamped to 0.05 on a nearly depleted reserve, the
whole budget capped by a positive per-turn maximum. -/
def compute_budget_s (tc_move_s : Option ℚ) (r : ℚ)
    (tc_turntime_s : Option ℚ) : Option ℚ :=
  match tc_move_s with
  | none => none
  | some inc =>
    let reserve_fraction : ℚ := 10 / 100
    let reserve_cap : ℚ := 50 / 100
    let extra0 := min (r * reserve_fraction) reserve_cap
    let extra := if r < 15 / 100 then min extra0 (5 / 100) else extra0
    let budget := inc + extra
    match tc_turntime_s with
    | some tt => if 0 < tt then some (min budget tt) else some budget
    | none => some budget

/-- The per-move time budget as claim C4 words it: "no deadline" when
no increment is configured; otherwise increment + min(reserve * 0.10,
0.50), with the extra further capped at 0.05 when the reserve is below
0.15, and the whole budget capped by the per-turn maximum when that
maximum is set and positive. -/
def compute_budget_claim (tc_move_s : Option ℚ) (r : ℚ)
    (tc_turntime_s : Option ℚ) : Option ℚ :=
  match tc_move_s with
  | none => none
  | some inc =>
    let extra0 := min (r * (10 / 100)) (50 / 100)
    let extra := if r < 15 / 100 then min extra0 (5 / 100) else extra0
    let uncapped := inc + extra
    match tc_turntime_s with
    | some tt => if 0 < tt then some (min uncapped tt) else some uncapped
    | none => some uncapped

/-- Mirrors the timekeeper's safety margin configured by the engine
(`TimeKeeper(safety_margin_s=0.03)`). -/
def engine_safety_margin : ℚ := 3 / 100

/-- Mirrors `TimeKeeper.start_move` for a concrete budget: the absolute
deadline is one monotonic-clock read plus the budget less the safety
margin, floored at zero; no deadline (and no clock read) for `none`. -/
def start_move_deadline (clock : ℕ → ℚ) (t : ℕ) : Option ℚ → Option ℚ × ℕ
  | none => (none, t)
  | some b => (some (clock t + max 0 (b - engine_safety_margin)), t + 1)

/-- Mirrors the non-setup branch of `AEIEngine.go`: compute the budget
from the side to move's reserve, start the timekeeper, and select the
emitted move with `get_eval_step_move` under the resulting deadline
(the setup branch emits the canonical placing move, modelled by the
`setupMove` oracle). -/
def AEIEngine.go (st : EngState) (moves : List (Pos × Steps))
    (clock : ℕ → ℚ) (t tieIx : ℕ) (setupMove : Steps) : Option Steps × Pos :=
  if st.insetup then (some setupMove, st.position)
  else
    let budget := compute_budget_s st.tc_move_s
      (if st.position.color = 0 then st.reserve_gold else st.reserve_silver)
      st.tc_turntime_s
    let dl := start_move_deadline clock t budget
    let r := get_eval_step_move moves clock defaultGlueConfig st.position dl.1 tieIx dl.2
    (r.steps, r.res)

/-- Invariant of the best-so-far accumulator relative to the list of
scored candidates so far: every scored candidate's score is at most the
best score, every member of the best set is a scored candidate with the
best score, and the best set is empty only in the initial state. -/
def GoodAcc (acc : Score × List (Steps × Pos))
    (scored : List (Score × Steps × Pos)) : Prop :=
  (∀ x ∈ scored, Score.ble x.1 acc.1 = true) ∧
  (∀ p ∈ acc.2, (acc.1, p.1, p.2) ∈ scored) ∧
  (acc.2 = [] → scored = []) ∧
  (acc.2 = [] → acc.1 = Score.ninf)

/-- The constraint test as claim C6 words it: for every step the moved
piece (the piece at the from-square in the original position) must
belong to the allowed-piece set when one is given, and both squares
must belong to the allowed-square set when one is given. -/
def matches_constraints_claim (from_pos : Pos) (steps : Steps)
    (only_pieces only_squares : Option (List ℕ)) : Bool :=
  steps.all (fun ft =>
    (match only_pieces with
     | none => true
     | some ps => decide (piece_at from_pos (2 ^ ft.1) ∈ ps)) &&
    (match only_squares with
     | none => true
     | some sq => decide (ft.1 ∈ sq) && decide (ft.2 ∈ sq)))

/-- Constant clock stream used by the reducer counterexample (always
well before the deadline). -/
def clockC2 : ℕ → ℚ := fun _ => 0

/-- A mobile one-move generator whose sampler always draws the single
legal move. -/
def genC2A : Gen :=
  ⟨[(startPos, [(0, 1)])], fun _ => some ([(0, 1)], startPos)⟩

/-- An immobilized generator: the sampler reports no legal move. -/
def genC2B : Gen := ⟨[], fun _ => none⟩

/-- The concrete fallback-mode reducer result used by the C2 witness. -/
def resC2W : GfmRes :=
  ⟨some [(0, 1)], startPos, 1, 1, [([(0, 1)], startPos)], .fallback⟩

/-- A position with empty boards and no legal steps (cheap and
expensive evaluations both zero). -/
def posEmptyA : Pos := ⟨0, 4, fun _ => 0, fun _ => 0, 0, fun _ => 0, 0⟩

/-- A position with empty boards but five legal gold steps reported by
the generator: the cheap evaluation ties with `posEmptyA`, the
expensive (legal-mobility) evaluation is strictly higher. -/
def posEmptyB : Pos :=
  ⟨0, 4, fun _ => 0, fun _ => 0, 0, fun c => if c = 0 then 5 else 0, 0⟩

/-- Two-stage configuration with stage-1 top-K 2 and stage-2 top-K' 1,
deterministic ties. -/
def cfgC5 : TwoStageConfig :=
  ⟨DEFAULT_WEIGHTS, none, 50000, 2, 1, false, true, false⟩

/-- The two-candidate move list of the C5 counterexample. -/
def movesC5 : List (Pos × Steps) := [(posEmptyA, [(0, 1)]), (posEmptyB, [(2, 3)])]

/-- The clock stream of the deadline-race counterexample: the picker's
loop check still sees time left, the reducer's first attempt check is
already past the deadline. -/
def clockRace : ℕ → ℚ := fun n => if n = 0 then 0 else 100

/-- The clock stream of the picker witnesses: one candidate is sampled
and scored, then the deadline passes. -/
def clockW : ℕ → ℚ := fun n => if n ≤ 1 then 0 else 100

/-- The result of the concrete single-candidate picker run used by the
C3 and C8 witnesses. -/
def resPickW : PickRes :=
  ⟨some [(0, 1)], startPos, 3, 1, [(Score.pinf, [(0, 1)], startPos)], [],
    .fromBest⟩

/-- The winning terminal result position of the C1 and C10 concrete
instances. -/
def posWin : Pos := ⟨0, 4, fun _ => 0, fun _ => 0, 0, fun _ => 0, 1⟩

/-- The losing terminal result position of the C1 concrete instance. -/
def posLoss : Pos := ⟨0, 4, fun _ => 0, fun _ => 0, 0, fun _ => 0, -1⟩

/-- Concrete two-move enumeration: a winning move listed first, a
losing move second. -/
def movesC1 : List (Pos × Steps) := [(posWin, [(0, 1)]), (posLoss, [(2, 3)])]

/-- Generator whose enumeration is `movesC1` but whose random sampler
always draws the losing move. -/
def genC1 : Gen := ⟨movesC1, fun _ => some ([(2, 3)], posLoss)⟩

/-- Shared clock of the C1 comparison: two reads before the deadline,
expired from the third read on. -/
def clockC1 : ℕ → ℚ := fun n => if n ≤ 1 then 0 else 100

/-- The concrete engine state of the C1 and C10 witnesses: not in
setup, a 2s increment, a 10s gold reserve, no per-turn cap. -/
def estC1 : EngState := ⟨true, none, 0, some 2, none, 10, 0, startPos, false⟩

theorem Score.ble_refl (a : Score) : Score.ble a a = true := by
  cases a <;> simp [Score.ble]

theorem Score.ble_trans {a b c : Score} (h1 : Score.ble a b = true)
    (h2 : Score.ble b c = true) : Score.ble a c = true := by
  cases a <;> cases b <;> cases c <;> simp_all [Score.ble]
  all_goals linarith

theorem Score.ble_of_blt {a b : Score} (h : Score.blt a b = true) :
    Score.ble a b = true := by
  cases a <;> cases b <;> simp_all [Score.blt, Score.ble]
  all_goals linarith

theorem Score.ble_of_not_blt {a b : Score} (h : Score.blt a b = false)
    (hne : b ≠ a) : Score.ble b a = true := by
  cases a <;> cases b <;> simp_all [Score.blt, Score.ble]

theorem Score.blt_ninf_of_ne {a : Score} (h : a ≠ Score.ninf) :
    Score.blt Score.ninf a = true := by
  cases a <;> simp_all [Score.blt]

theorem goodAcc_init : GoodAcc (Score.ninf, []) [] :=
  ⟨by simp, by simp, fun _ => rfl, fun _ => rfl⟩

theorem bestStep_good {acc : Score × List (Steps × Pos)}
    {scored : List (Score × Steps × Pos)} (h : GoodAcc acc scored)
    (s : Score) (st : Steps) (r : Pos) :
    GoodAcc (bestStep acc s st r) (scored ++ [(s, st, r)]) := by
  obtain ⟨h1, h2, h3, h4⟩ := h
  unfold bestStep
  by_cases hlt : Score.blt acc.1 s = true
  · rw [if_pos hlt]
    refine ⟨?_, ?_, by simp, by simp⟩
    · intro x hx
      rcases List.mem_append.mp hx with hx | hx
      · exact Score.ble_trans (h1 x hx) (Score.ble_of_blt hlt)
      · simp only [List.mem_singleton] at hx
        subst hx
        exact Score.ble_refl s
    · intro p hp
      simp only [List.mem_singleton] at hp
      subst hp
      simp
  · rw [if_neg (by simp [hlt])]
    by_cases heq : s = acc.1
    · rw [if_pos heq]
      refine ⟨?_, ?_, by simp, by simp⟩
      · intro x hx
        rcases List.mem_append.mp hx with hx | hx
        · exact h1 x hx
        · simp only [List.mem_singleton] at hx
          subst hx
          subst heq
          exact Score.ble_refl _
      · intro p hp
        rcases List.mem_append.mp hp with hp | hp
        · exact List.mem_append_left _ (h2 p hp)
        · simp only [List.mem_singleton] at hp
          subst hp
          subst heq
          exact List.mem_append_right _ (by simp)
    · rw [if_neg heq]
      have hble : Score.ble s acc.1 = true :=
        Score.ble_of_not_blt (by simpa using hlt) heq
      have hne : acc.2 ≠ [] := by
        intro hnil
        have hninf := h4 hnil
        have := Score.blt_ninf_of_ne (a := s) (by
          intro hs
          exact heq (hs.trans hninf.symm))
        rw [hninf] at hlt
        exact hlt this
      refine ⟨?_, ?_, fun hnil => absurd hnil hne, fun hnil => absurd hnil hne⟩
      · intro x hx
        rcases List.mem_append.mp hx with hx | hx
        · exact h1 x hx
        · simp only [List.mem_singleton] at hx
          subst hx
          exact hble
      · intro p hp
        exact List.mem_append_left _ (h2 p hp)

theorem foldl_bestStep_good :
    ∀ (l : List (Score × Steps × Pos)) (acc : Score × List (Steps × Pos))
      (scored : List (Score × Steps × Pos)), GoodAcc acc scored →
      GoodAcc (l.foldl (fun a x => bestStep a x.1 x.2.1 x.2.2) acc) (scored ++ l)
  | [], acc, scored, h => by simpa using h
  | x :: xs, acc, scored, h => by
    have hx : GoodAcc (bestStep acc x.1 x.2.1 x.2.2) (scored ++ [x]) := by
      have := bestStep_good h x.1 x.2.1 x.2.2
      simpa using this
    have := foldl_bestStep_good xs (bestStep acc x.1 x.2.1 x.2.2) (scored ++ [x]) hx
    simpa [List.append_assoc] using this

theorem bestFold_good (l : List (Score × Steps × Pos)) :
    GoodAcc (bestFold l) l := by
  have := foldl_bestStep_good l (Score.ninf, []) [] goodAcc_init
  simpa [bestFold] using this

theorem pickTie_mem (rt : Bool) (ix : ℕ) (b0 : Steps × Pos)
    (rest : List (Steps × Pos)) :
    pickTie rt ix b0 (b0 :: rest) ∈ b0 :: rest := by
  unfold pickTie
  by_cases h : rt = true ∧ 1 < (b0 :: rest).length
  · rw [if_pos h]
    have hlt : ix % (b0 :: rest).length < (b0 :: rest).length :=
      Nat.mod_lt _ (by simp)
    rw [List.getD_eq_getElem?_getD, List.getElem?_eq_getElem hlt]
    exact List.getElem_mem hlt
  · rw [if_neg h]
    exact List.mem_cons_self _ _

/-- C4: the per-move time budget computed for `go` is "no deadline"
when no per-move increment is configured; otherwise it equals
increment + min(reserve * 0.10, 0.50), with the extra further capped at
0.05 when the side's reserve is below 0.15, and the whole budget capped
by the per-turn maximum when that maximum is set and positive; in
particular increment 2.0 with reserve 10.0 yields 2.5, and reserve 0.10
yields an extra of at most 0.05. -/
theorem compute_budget_formula :
    (∀ r tt, compute_budget_s none r tt = none) ∧
    (∀ m r tt, compute_budget_s m r tt = compute_budget_claim m r tt) ∧
    compute_budget_s (some 2) 10 none = some (5 / 2) ∧
    (∀ inc, ∃ extra, extra ≤ 5 / 100 ∧
      compute_budget_s (some inc) (10 / 100) none = some (inc + extra)) := by
  refine ⟨fun r tt => rfl, fun m r tt => ?_, by norm_num [compute_budget_s], ?_⟩
  · cases m <;> cases tt <;> rfl
  · intro inc
    refine ⟨1 / 100, by norm_num, ?_⟩
    norm_num [compute_budget_s]

/-- C9: `newgame` resets the position to the blank setup state,
re-enters setup mode, and zeroes both sides' reserves, while leaving
the configured time-control parameters (and the other option flags)
unchanged. -/
theorem newgame_frame_effect (st : EngState) :
    (AEIEngine.newgame st).position = startPos ∧
    (AEIEngine.newgame st).insetup = true ∧
    (AEIEngine.newgame st).reserve_gold = 0 ∧
    (AEIEngine.newgame st).reserve_silver = 0 ∧
    (AEIEngine.newgame st).tc_move_s = st.tc_move_s ∧
    (AEIEngine.newgame st).tc_turntime_s = st.tc_turntime_s ∧
    (AEIEngine.newgame st).strict_checks = st.strict_checks ∧
    (AEIEngine.newgame st).move_delay = st.move_delay ∧
    (AEIEngine.newgame st).total_move_time = st.total_move_time :=
  ⟨rfl, rfl, rfl, rfl, rfl, rfl, rfl, rfl, rfl⟩

/-- C7: for every non-terminal position, every weight record and each
mobility mode, the evaluation from gold's perspective is the exact
negation of the evaluation from silver's perspective. -/
theorem evaluate_position_antisymmetry (pos : Pos) (w : EvalWeights)
    (m : Bool) (h : pos.endState = 0) :
    evaluate_position pos 0 w m = Score.neg (evaluate_position pos 1 w m) := by
  cases m <;>
    simp only [evaluate_position, h, ne_eq, not_true_eq_false, if_false,
      Score.neg, feature_material_counts, feature_trap_control_and_danger,
      feature_frozen_pieces, feature_mobility, feature_rabbit_advancement,
      feature_immediate_goal_threats, if_true, Nat.one_ne_zero, if_pos rfl] <;>
    norm_num <;> ring

/-- Witness for C7 at the blank setup position. -/
theorem evaluate_position_antisymmetry_witness :
    startPos.endState = 0 ∧
    evaluate_position startPos 0 DEFAULT_WEIGHTS true =
      Score.neg (evaluate_position startPos 1 DEFAULT_WEIGHTS true) :=
  ⟨rfl, evaluate_position_antisymmetry startPos DEFAULT_WEIGHTS true rfl⟩

/-- Counterexample to C6 as stated: a step out of an empty square with
EMPTY (code 0) in the allowed-piece set satisfies the claim's predicate
but is rejected by `_matches_constraints`, which additionally requires
the from-square to be occupied. -/
theorem matches_constraints_empty_piece_cex :
    matches_constraints_claim startPos [(0, 1)] (some [0]) none = true ∧
    matches_constraints startPos [(0, 1)] (some [0]) none = false := by
  constructor <;> rfl

/-- C6 (amended): `_matches_constraints` accepts a move iff every step
has both squares in the allowed-square set when one is given, and, when
an allowed-piece set is given, the from-square holds a piece in the
original position (non-EMPTY) whose code belongs to the set; absence of
a restriction on an axis constrains nothing. -/
theorem matches_constraints_characterization (pos : Pos) (steps : Steps)
    (op os : Option (List ℕ)) :
    matches_constraints pos steps op os = true ↔
      ∀ ft ∈ steps,
        (∀ l, op = some l →
          piece_at pos (2 ^ ft.1) ≠ 0 ∧ piece_at pos (2 ^ ft.1) ∈ l) ∧
        (∀ l, os = some l → ft.1 ∈ l ∧ ft.2 ∈ l) := by
  cases op with
  | none =>
    cases os with
    | none => simp [matches_constraints]
    | some sq =>
      simp [matches_constraints, List.all_eq_true, and_assoc]
  | some ps =>
    cases os with
    | none =>
      simp [matches_constraints, List.all_eq_true, and_assoc]
    | some sq =>
      simp only [matches_constraints, Option.some_ne_none, false_and, if_false,
        List.all_eq_true, Bool.and_eq_true, decide_eq_true_eq,
        Bool.not_eq_true', decide_eq_false_iff_not, Option.some.injEq]
      constructor
      · intro h ft hft
        obtain ⟨⟨hs1, hs2⟩, hp⟩ := h ft hft
        refine ⟨fun l hl => ?_, fun l hl => ?_⟩
        · subst hl
          simpa using hp
        · subst hl
          exact ⟨hs1, hs2⟩
      · intro h ft hft
        obtain ⟨hp, hs⟩ := h ft hft
        refine ⟨?_, ?_⟩
        · exact hs sq rfl
        · simpa using hp ps rfl

theorem gfm_exhaust_shape (pos : Pos) (limits : FilterLimits) (t s : ℕ)
    (acc : List (Steps × Pos)) :
    (limits.fallback_to_unfiltered = true →
      ∀ l, (gfm_exhaust pos limits t s acc).sampled.getLast? = some l →
        (gfm_exhaust pos limits t s acc).steps = some l.1 ∧
        (gfm_exhaust pos limits t s acc).res = l.2) ∧
    ((limits.fallback_to_unfiltered = false ∨
        (gfm_exhaust pos limits t s acc).sampled = []) →
      (gfm_exhaust pos limits t s acc).steps = none ∧
      (gfm_exhaust pos limits t s acc).res = pos) := by
  unfold gfm_exhaust
  by_cases hf : limits.fallback_to_unfiltered = true
  · rcases hacc : acc.getLast? with _ | l
    · simp [hf, hacc]
    · simp only [hf, hacc, if_true]
      refine ⟨fun _ l2 hl2 => ?_, fun hor => ?_⟩
      · obtain rfl : l = l2 := by simpa using hl2
        exact ⟨rfl, rfl⟩
      · rcases hor with hor | hor
        · simp [hf] at hor
        · subst hor
          simp at hacc
  · simp only [Bool.not_eq_true] at hf
    simp [hf]

theorem gfm_loop_exhaust_shape (gen : Gen) (clock : ℕ → ℚ) (pos : Pos)
    (d : ℚ) (op os : Option (List ℕ)) (limits : FilterLimits) :
    ∀ (fuel t s : ℕ) (acc : List (Steps × Pos)),
      ((gfm_loop gen clock pos d op os limits fuel t s acc).tag = .fallback ∨
        (gfm_loop gen clock pos d op os limits fuel t s acc).tag = .nomatch) →
      (limits.fallback_to_unfiltered = true →
        ∀ l, (gfm_loop gen clock pos d op os limits fuel t s acc).sampled.getLast? = some l →
          (gfm_loop gen clock pos d op os limits fuel t s acc).steps = some l.1 ∧
          (gfm_loop gen clock pos d op os limits fuel t s acc).res = l.2) ∧
      ((limits.fallback_to_unfiltered = false ∨
          (gfm_loop gen clock pos d op os limits fuel t s acc).sampled = []) →
        (gfm_loop gen clock pos d op os limits fuel t s acc).steps = none ∧
        (gfm_loop gen clock pos d op os limits fuel t s acc).res = pos)
  | 0, t, s, acc => fun _ => gfm_exhaust_shape pos limits t s acc
  | Nat.succ n, t, s, acc => by
    intro hex
    rw [gfm_loop] at hex ⊢
    by_cases hd : d ≤ clock t
    · rw [if_pos hd] at hex ⊢
      exact gfm_exhaust_shape pos limits (t + 1) s acc
    · rw [if_neg hd] at hex ⊢
      rcases hsam : gen.sample s with _ | ⟨st, r⟩
      · rw [hsam] at hex
        simp at hex
      · rw [hsam] at hex
        dsimp only at hex
        by_cases hm : matches_constraints pos st op os = true
        · rw [if_pos hm] at hex
          simp at hex
        · rw [if_neg hm] at hex
          dsimp only
          rw [if_neg hm]
          exact gfm_loop_exhaust_shape gen clock pos d op os limits n
            (t + 1) (s + 1) (acc ++ [(st, r)]) hex

/-- C2 (amended): when a `get_filtered_move` call exhausts its attempt
cap or deadline without finding a constraint-matching move, then if
`fallback_to_unfiltered` is set and at least one legal move was sampled
it returns the last sampled (unconstrained) legal move; otherwise it
returns `(none, pos)` — exactly the same value as the "no legal move"
(immobilized) result, not a distinct one. -/
theorem get_filtered_move_exhaust_policy (gen : Gen) (clock : ℕ → ℚ)
    (pos : Pos) (time_budget_s deadline : Option ℚ)
    (op os : Option (List ℕ)) (limits : FilterLimits) (t s : ℕ)
    (res : GfmRes)
    (hrun : get_filtered_move gen clock pos time_budget_s deadline op os
      limits t s = some res)
    (hex : res.tag = .fallback ∨ res.tag = .nomatch) :
    (limits.fallback_to_unfiltered = true →
      ∀ l, res.sampled.getLast? = some l →
        res.steps = some l.1 ∧ res.res = l.2) ∧
    ((limits.fallback_to_unfiltered = false ∨ res.sampled = []) →
      res.steps = none ∧ res.res = pos) := by
  rcases time_budget_s with _ | b <;> rcases deadline with _ | d <;>
    simp only [get_filtered_move, Option.some.injEq, reduceCtorEq] at hrun
  · obtain rfl := hrun
    exact gfm_loop_exhaust_shape gen clock pos d op os limits
      (max 1 limits.max_attempts) t s [] hex
  · obtain rfl := hrun
    exact gfm_loop_exhaust_shape gen clock pos (clock t + max 0 b) op os limits
      (max 1 limits.max_attempts) (t + 1) s [] hex

/-- Counterexample to C2 as stated: a call on a mobile position that
exhausts its single attempt without a match (the sampled move's squares
are outside the allowed set) with the fallback disabled returns exactly
`(none, startPos)` — the very same value an immobilized call returns —
so the "no match" result is not distinct from the "no legal move"
result. -/
theorem no_match_equals_immobilized_cex :
    get_filtered_move genC2A clockC2 startPos none (some 100) none
      (some [5]) ⟨1, false⟩ 0 0 =
      some ⟨none, startPos, 1, 1, [([(0, 1)], startPos)], .nomatch⟩ ∧
    get_filtered_move genC2B clockC2 startPos none (some 100) none
      (some [5]) ⟨1, false⟩ 0 0 =
      some ⟨none, startPos, 1, 1, [], .immobilized⟩ ∧
    genC2A.moves ≠ [] :=
  ⟨rfl, rfl, by simp [genC2A]⟩

/-- Witness for C2 (amended) on a concrete fallback-enabled run. -/
theorem get_filtered_move_exhaust_policy_witness :
    resC2W.steps = some [(0, 1)] ∧ resC2W.res = startPos :=
  (get_filtered_move_exhaust_policy genC2A clockC2 startPos none (some 100)
      none (some [5]) ⟨1, true⟩ 0 0 resC2W rfl (Or.inl rfl)).1 rfl
    ([(0, 1)], startPos) rfl

theorem popcount_zero : popcount 0 = 0 := rfl

theorem bitIndices_zero : bitIndices 0 = [] := rfl

theorem evalA_cheap :
    evaluate_position posEmptyA 0 DEFAULT_WEIGHTS false = Score.val 0 := by
  norm_num [evaluate_position, posEmptyA, DEFAULT_WEIGHTS,
    feature_material_counts, feature_trap_control_and_danger,
    feature_frozen_pieces, feature_mobility, feature_rabbit_advancement,
    feature_immediate_goal_threats, trap_term, trap_defenders, trap_attackers,
    frozen_weight_sum, rabbit_advancement_sum, count_near_goal_threats,
    popcount_zero, bitIndices_zero, TRAP_BITS, piece_value_by_rank]

theorem evalB_cheap :
    evaluate_position posEmptyB 0 DEFAULT_WEIGHTS false = Score.val 0 := by
  norm_num [evaluate_position, posEmptyB, DEFAULT_WEIGHTS,
    feature_material_counts, feature_trap_control_and_danger,
    feature_frozen_pieces, feature_mobility, feature_rabbit_advancement,
    feature_immediate_goal_threats, trap_term, trap_defenders, trap_attackers,
    frozen_weight_sum, rabbit_advancement_sum, count_near_goal_threats,
    popcount_zero, bitIndices_zero, TRAP_BITS, piece_value_by_rank]

theorem evalA_slow :
    evaluate_position posEmptyA 0 DEFAULT_WEIGHTS true = Score.val 0 := by
  norm_num [evaluate_position, posEmptyA, DEFAULT_WEIGHTS,
    feature_material_counts, feature_trap_control_and_danger,
    feature_frozen_pieces, feature_mobility, feature_rabbit_advancement,
    feature_immediate_goal_threats, trap_term, trap_defenders, trap_attackers,
    frozen_weight_sum, rabbit_advancement_sum, count_near_goal_threats,
    popcount_zero, bitIndices_zero, TRAP_BITS, piece_value_by_rank]

theorem evalB_slow :
    evaluate_position posEmptyB 0 DEFAULT_WEIGHTS true = Score.val (2 / 5) := by
  norm_num [evaluate_position, posEmptyB, DEFAULT_WEIGHTS,
    feature_material_counts, feature_trap_control_and_danger,
    feature_frozen_pieces, feature_mobility, feature_rabbit_advancement,
    feature_immediate_goal_threats, trap_term, trap_defenders, trap_attackers,
    frozen_weight_sum, rabbit_advancement_sum, count_near_goal_threats,
    popcount_zero, bitIndices_zero, TRAP_BITS, piece_value_by_rank]

theorem posA_color : posEmptyA.color = 0 := rfl

/-- Counterexample to C5 as stated: with K = 2 and K' = 1 the code
truncates the stage-1 ranking to its top entry before any expensive
scoring and returns it, while the procedure the claim describes
(re-score the full top-K with the expensive evaluation, keep the top-K'
of the re-scores) returns the other move, whose expensive score is
strictly higher. -/
theorem two_stage_shortlist_cex :
    (select_best_move_two_stage posEmptyA movesC5 cfgC5 (fun l _ => l) 0).1 =
      some [(0, 1)] ∧
    (select_best_move_two_stage_claim posEmptyA movesC5 cfgC5 (fun l _ => l) 0).1 =
      some [(2, 3)] ∧
    (some [(0, 1)] : Option Steps) ≠ some [(2, 3)] := by
  refine ⟨?_, ?_, by decide⟩
  · norm_num [select_best_move_two_stage, two_stage_shortlist2,
      two_stage_stage1, two_stage_slow_score, movesC5, cfgC5, posA_color,
      evalA_cheap, evalB_cheap, evalA_slow, evalB_slow, step_shaping_penalty,
      sortDescBy, insertDescBy, bestFold, bestStep, pickTie, Score.blt,
      Score.sub]
  · norm_num [select_best_move_two_stage_claim, two_stage_stage1,
      two_stage_slow_score, movesC5, cfgC5, posA_color, evalA_cheap,
      evalB_cheap, evalA_slow, evalB_slow, step_shaping_penalty, sortDescBy,
      insertDescBy, bestFold, bestStep, pickTie, Score.blt, Score.sub]

theorem insertDescBy_ne_nil (x : Score × Pos × Steps)
    (l : List (Score × Pos × Steps)) : insertDescBy x l ≠ [] := by
  cases l with
  | nil => simp [insertDescBy]
  | cons y ys =>
    unfold insertDescBy
    by_cases hb : Score.blt y.1 x.1 = true <;> simp [hb]

theorem sortDescBy_ne_nil (l : List (Score × Pos × Steps)) (h : l ≠ []) :
    sortDescBy l ≠ [] := by
  unfold sortDescBy
  cases l with
  | nil => exact absurd rfl h
  | cons x xs =>
    rw [List.foldl_cons]
    have hgen : ∀ (ys : List (Score × Pos × Steps))
        (acc : List (Score × Pos × Steps)), acc ≠ [] →
        ys.foldl (fun a z => insertDescBy z a) acc ≠ [] := by
      intro ys
      induction ys with
      | nil => intro acc hacc; simpa using hacc
      | cons z zs ih =>
        intro acc hacc
        rw [List.foldl_cons]
        exact ih _ (insertDescBy_ne_nil z acc)
    exact hgen xs _ (insertDescBy_ne_nil x [])

/-- C5 (amended): for every non-empty move list, stage 1 scores the
(possibly subsampled) pool with the cheap evaluation and ranks it
descending with ties in original order; the top-K' prefix of the top-K
prefix of that stage-1 ranking is selected before any expensive
scoring; stage 2 then re-scores only that shortlist with the expensive
evaluation, and the final pick is a member of that shortlist whose
expensive score is maximal within it. -/
theorem two_stage_selection_amended (from_pos : Pos)
    (moves : List (Pos × Steps)) (cfg : TwoStageConfig)
    (sampleFn : List (Pos × Steps) → ℕ → List (Pos × Steps)) (tieIx : ℕ)
    (h : moves ≠ [])
    (hs : 0 < cfg.max_stage1_moves ∧ cfg.max_stage1_moves < moves.length →
      sampleFn moves cfg.max_stage1_moves ≠ []) :
    ∃ x ∈ two_stage_shortlist2 from_pos moves cfg sampleFn,
      select_best_move_two_stage from_pos moves cfg sampleFn tieIx =
        (some x.2.2, x.2.1) ∧
      ∀ y ∈ two_stage_shortlist2 from_pos moves cfg sampleFn,
        Score.ble (two_stage_slow_score from_pos cfg y)
          (two_stage_slow_score from_pos cfg x) = true := by
  have hpool : (if 0 < cfg.max_stage1_moves ∧
      cfg.max_stage1_moves < moves.length then
      sampleFn moves cfg.max_stage1_moves else moves) ≠ [] := by
    by_cases hc : 0 < cfg.max_stage1_moves ∧ cfg.max_stage1_moves < moves.length
    · rw [if_pos hc]
      exact hs hc
    · rw [if_neg hc]
      exact h
  have hstage1 : two_stage_stage1 from_pos moves cfg sampleFn ≠ [] := by
    unfold two_stage_stage1
    apply sortDescBy_ne_nil
    simpa using hpool
  have hsl2 : two_stage_shortlist2 from_pos moves cfg sampleFn ≠ [] := by
    unfold two_stage_shortlist2
    intro hnil
    rw [List.take_eq_nil_iff] at hnil
    rcases hnil with hnil | hnil
    · simp at hnil
    · rw [List.take_eq_nil_iff] at hnil
      rcases hnil with hnil | hnil
      · simp at hnil
      · exact hstage1 hnil
  have hbne : (bestFold ((two_stage_shortlist2 from_pos moves cfg sampleFn).map
      (fun x => (two_stage_slow_score from_pos cfg x, x.2.2, x.2.1)))).2 ≠ [] := by
    intro hnil
    have := (bestFold_good _).2.2.1 hnil
    rw [List.map_eq_nil_iff] at this
    exact hsl2 this
  rcases hm : (bestFold ((two_stage_shortlist2 from_pos moves cfg sampleFn).map
      (fun x => (two_stage_slow_score from_pos cfg x, x.2.2, x.2.1)))).2
    with _ | ⟨b0, rest⟩
  · exact absurd hm hbne
  have hsel : select_best_move_two_stage from_pos moves cfg sampleFn tieIx =
      (some (pickTie cfg.random_ties tieIx b0 (b0 :: rest)).1,
        (pickTie cfg.random_ties tieIx b0 (b0 :: rest)).2) := by
    cases moves with
    | nil => exact absurd rfl h
    | cons m0 ms =>
      unfold select_best_move_two_stage
      dsimp only
      rw [hm]
  have hmem : pickTie cfg.random_ties tieIx b0 (b0 :: rest) ∈
      (bestFold ((two_stage_shortlist2 from_pos moves cfg sampleFn).map
        (fun x => (two_stage_slow_score from_pos cfg x, x.2.2, x.2.1)))).2 := by
    rw [hm]
    exact pickTie_mem _ _ _ _
  have hin := (bestFold_good ((two_stage_shortlist2 from_pos moves cfg sampleFn).map
      (fun x => (two_stage_slow_score from_pos cfg x, x.2.2, x.2.1)))).2.1 _ hmem
  rw [List.mem_map] at hin
  obtain ⟨x, hxS, hxeq⟩ := hin
  have hx1 : two_stage_slow_score from_pos cfg x =
      (bestFold ((two_stage_shortlist2 from_pos moves cfg sampleFn).map
        (fun x => (two_stage_slow_score from_pos cfg x, x.2.2, x.2.1)))).1 :=
    congrArg Prod.fst hxeq
  have hx2 : x.2.2 = (pickTie cfg.random_ties tieIx b0 (b0 :: rest)).1 :=
    congrArg (fun p => p.2.1) hxeq
  have hx3 : x.2.1 = (pickTie cfg.random_ties tieIx b0 (b0 :: rest)).2 :=
    congrArg (fun p => p.2.2) hxeq
  refine ⟨x, hxS, ?_, ?_⟩
  · rw [hsel, hx2, hx3]
  · intro y hyS
    have hy := (bestFold_good ((two_stage_shortlist2 from_pos moves cfg sampleFn).map
        (fun x => (two_stage_slow_score from_pos cfg x, x.2.2, x.2.1)))).1
      (two_stage_slow_score from_pos cfg y, y.2.2, y.2.1)
      (List.mem_map_of_mem _ hyS)
    rw [← hx1] at hy
    exact hy

/-- Witness for C5 (amended) at the concrete two-candidate input: the
selector returns a move (a member of the stage-2 shortlist). -/
theorem two_stage_selection_amended_witness :
    (select_best_move_two_stage posEmptyA movesC5 cfgC5 (fun l _ => l) 0).1 ≠
      none := by
  obtain ⟨x, _, hsel, _⟩ :=
    two_stage_selection_amended posEmptyA movesC5 cfgC5 (fun l _ => l) 0
      (by simp [movesC5]) (fun hc => absurd hc.2 (by simp [movesC5, cfgC5]))
  rw [hsel]
  simp

theorem gfm_exhaust_sampled (pos : Pos) (limits : FilterLimits) (t s : ℕ)
    (acc : List (Steps × Pos)) : (gfm_exhaust pos limits t s acc).sampled = acc := by
  unfold gfm_exhaust
  by_cases hf : limits.fallback_to_unfiltered = true
  · rw [if_pos hf]
    rcases acc.getLast? with _ | l <;> rfl
  · rw [if_neg hf]

theorem gfm_exhaust_ret_sampled (pos : Pos) (limits : FilterLimits) (t s : ℕ)
    (acc : List (Steps × Pos)) (st : Steps)
    (hst : (gfm_exhaust pos limits t s acc).steps = some st) :
    (st, (gfm_exhaust pos limits t s acc).res) ∈
      (gfm_exhaust pos limits t s acc).sampled := by
  unfold gfm_exhaust at hst ⊢
  by_cases hf : limits.fallback_to_unfiltered = true
  · rw [if_pos hf] at hst ⊢
    revert hst
    rcases hacc : acc.getLast? with _ | l <;> intro hst <;> dsimp only at hst ⊢
    · simp at hst
    · obtain rfl : l.1 = st := by simpa using hst
      rcases List.mem_getLast?_eq_getLast (l := acc) (x := l)
        (by simpa [Option.mem_def] using hacc) with ⟨hne, heq⟩
      rw [heq]
      exact List.getLast_mem hne
  · rw [if_neg hf] at hst
    simp at hst

theorem gfm_exhaust_none_sampled (pos : Pos) (limits : FilterLimits)
    (t s : ℕ) (acc : List (Steps × Pos))
    (hf : limits.fallback_to_unfiltered = true)
    (hst : (gfm_exhaust pos limits t s acc).steps = none) :
    (gfm_exhaust pos limits t s acc).sampled = [] := by
  unfold gfm_exhaust at hst ⊢
  rw [if_pos hf] at hst ⊢
  revert hst
  rcases hacc : acc.getLast? with _ | l <;> intro hst <;> dsimp only at hst ⊢
  · exact List.getLast?_eq_none_iff.mp hacc
  · simp at hst

theorem gfm_loop_sampled_sub (gen : Gen) (clock : ℕ → ℚ) (pos : Pos)
    (d : ℚ) (op os : Option (List ℕ)) (limits : FilterLimits) :
    ∀ (fuel t s : ℕ) (acc : List (Steps × Pos)) (x : Steps × Pos),
      x ∈ (gfm_loop gen clock pos d op os limits fuel t s acc).sampled →
      x ∈ acc ∨ ∃ i, gen.sample i = some x
  | 0, t, s, acc, x => by
    intro hx
    rw [gfm_loop, gfm_exhaust_sampled] at hx
    exact Or.inl hx
  | Nat.succ n, t, s, acc, x => by
    intro hx
    rw [gfm_loop] at hx
    by_cases hd : d ≤ clock t
    · rw [if_pos hd, gfm_exhaust_sampled] at hx
      exact Or.inl hx
    · rw [if_neg hd] at hx
      rcases hsam : gen.sample s with _ | ⟨st, r⟩
      · rw [hsam] at hx
        exact Or.inl hx
      · rw [hsam] at hx
        dsimp only at hx
        by_cases hm : matches_constraints pos st op os = true
        · rw [if_pos hm] at hx
          rcases List.mem_append.mp hx with hx | hx
          · exact Or.inl hx
          · simp only [List.mem_singleton] at hx
            subst hx
            exact Or.inr ⟨s, hsam⟩
        · rw [if_neg hm] at hx
          rcases gfm_loop_sampled_sub gen clock pos d op os limits n
              (t + 1) (s + 1) (acc ++ [(st, r)]) x hx with hx2 | hx2
          · rcases List.mem_append.mp hx2 with hx3 | hx3
            · exact Or.inl hx3
            · simp only [List.mem_singleton] at hx3
              subst hx3
              exact Or.inr ⟨s, hsam⟩
          · exact Or.inr hx2

theorem gfm_loop_ret_sampled (gen : Gen) (clock : ℕ → ℚ) (pos : Pos)
    (d : ℚ) (op os : Option (List ℕ)) (limits : FilterLimits) :
    ∀ (fuel t s : ℕ) (acc : List (Steps × Pos)) (st : Steps),
      (gfm_loop gen clock pos d op os limits fuel t s acc).steps = some st →
      (st, (gfm_loop gen clock pos d op os limits fuel t s acc).res) ∈
        (gfm_loop gen clock pos d op os limits fuel t s acc).sampled
  | 0, t, s, acc, st => by
    intro hst
    rw [gfm_loop] at hst ⊢
    exact gfm_exhaust_ret_sampled pos limits t s acc st hst
  | Nat.succ n, t, s, acc, st => by
    intro hst
    rw [gfm_loop] at hst ⊢
    by_cases hd : d ≤ clock t
    · rw [if_pos hd] at hst ⊢
      exact gfm_exhaust_ret_sampled pos limits (t + 1) s acc st hst
    · rw [if_neg hd] at hst ⊢
      revert hst
      rcases hsam : gen.sample s with _ | ⟨st2, r⟩ <;> intro hst <;>
        dsimp only at hst ⊢
      · simp at hst
      · by_cases hm : matches_constraints pos st2 op os = true
        · rw [if_pos hm] at hst ⊢
          obtain rfl : st2 = st := by simpa using hst
          simp
        · rw [if_neg hm] at hst ⊢
          exact gfm_loop_ret_sampled gen clock pos d op os limits n
            (t + 1) (s + 1) (acc ++ [(st2, r)]) st hst

theorem gfm_loop_none_no_sample (gen : Gen) (clock : ℕ → ℚ) (pos : Pos)
    (d : ℚ) (op os : Option (List ℕ)) (limits : FilterLimits)
    (hf : limits.fallback_to_unfiltered = true)
    (hmob : ∀ i, gen.sample i ≠ none) :
    ∀ (fuel t s : ℕ) (acc : List (Steps × Pos)),
      (gfm_loop gen clock pos d op os limits fuel t s acc).steps = none →
      (gfm_loop gen clock pos d op os limits fuel t s acc).sampled = []
  | 0, t, s, acc => by
    intro hst
    rw [gfm_loop] at hst ⊢
    exact gfm_exhaust_none_sampled pos limits t s acc hf hst
  | Nat.succ n, t, s, acc => by
    intro hst
    rw [gfm_loop] at hst ⊢
    by_cases hd : d ≤ clock t
    · rw [if_pos hd] at hst ⊢
      exact gfm_exhaust_none_sampled pos limits (t + 1) s acc hf hst
    · rw [if_neg hd] at hst ⊢
      revert hst
      rcases hsam : gen.sample s with _ | ⟨st, r⟩ <;> intro hst <;>
        dsimp only at hst ⊢
      · exact absurd hsam (hmob s)
      · by_cases hm : matches_constraints pos st op os = true
        · rw [if_pos hm] at hst
          simp at hst
        · rw [if_neg hm] at hst ⊢
          exact gfm_loop_none_no_sample gen clock pos d op os limits hf hmob n
            (t + 1) (s + 1) (acc ++ [(st, r)]) hst

theorem gfm_run_legal (gen : Gen) (clock : ℕ → ℚ) (pos : Pos) (d : ℚ)
    (op os : Option (List ℕ)) (limits : FilterLimits) (t s : ℕ) (st : Steps)
    (hgen : ∀ i st2 r, gen.sample i = some (st2, r) → (r, st2) ∈ gen.moves)
    (hst : (get_filtered_move_run gen clock pos d op os limits t s).steps = some st) :
    ((get_filtered_move_run gen clock pos d op os limits t s).res, st) ∈
      gen.moves := by
  have hmem := gfm_loop_ret_sampled gen clock pos d op os limits
    (max 1 limits.max_attempts) t s [] st hst
  rcases gfm_loop_sampled_sub gen clock pos d op os limits
      (max 1 limits.max_attempts) t s []
      (st, (get_filtered_move_run gen clock pos d op os limits t s).res)
      hmem with hx | ⟨i, hi⟩
  · simp at hx
  · exact hgen i st _ hi

theorem gfm_run_none_no_sample (gen : Gen) (clock : ℕ → ℚ) (pos : Pos)
    (d : ℚ) (op os : Option (List ℕ)) (limits : FilterLimits) (t s : ℕ)
    (hf : limits.fallback_to_unfiltered = true)
    (hmob : ∀ i, gen.sample i ≠ none)
    (hst : (get_filtered_move_run gen clock pos d op os limits t s).steps = none) :
    (get_filtered_move_run gen clock pos d op os limits t s).sampled = [] :=
  gfm_loop_none_no_sample gen clock pos d op os limits hf hmob
    (max 1 limits.max_attempts) t s [] hst

theorem bestStep_mem (acc : Score × List (Steps × Pos)) (s : Score)
    (st : Steps) (r : Pos) :
    ∀ p ∈ (bestStep acc s st r).2, p ∈ acc.2 ∨ p = (st, r) := by
  unfold bestStep
  intro p hp
  by_cases h1 : Score.blt acc.1 s = true
  · rw [if_pos h1] at hp
    simp only [List.mem_singleton] at hp
    exact Or.inr hp
  · rw [if_neg h1] at hp
    by_cases h2 : s = acc.1
    · rw [if_pos h2] at hp
      rcases List.mem_append.mp hp with hp | hp
      · exact Or.inl hp
      · simp only [List.mem_singleton] at hp
        exact Or.inr hp
    · rw [if_neg h2] at hp
      exact Or.inl hp

theorem pma_finish_scored (gen : Gen) (clock : ℕ → ℚ) (pos : Pos) (d : ℚ)
    (cfg : PickerConfig) (tieIx t s : ℕ) (g : List (Score × Steps × Pos))
    (best : List (Steps × Pos)) :
    (pma_finish gen clock pos d cfg tieIx t s g best).scored = g := by
  cases best with
  | nil =>
    unfold pma_finish
    dsimp only
    rcases (get_filtered_move_run gen clock pos d none none ⟨8, true⟩ t s).steps
      with _ | st <;> rfl
  | cons b0 rest => rfl

theorem pma_finish_monotone (gen : Gen) (clock : ℕ → ℚ)
    (score_fn : Pos → Steps → Score) (pos : Pos) (d : ℚ)
    (cfg : PickerConfig) (tieIx t s : ℕ) (bs : Score)
    (best : List (Steps × Pos)) (g : List (Score × Steps × Pos))
    (hga : GoodAcc (bs, best) g)
    (hco : ∀ x ∈ g, x.1 = score_fn x.2.2 x.2.1) (st : Steps)
    (hst : (pma_finish gen clock pos d cfg tieIx t s g best).steps = some st) :
    ∀ x ∈ (pma_finish gen clock pos d cfg tieIx t s g best).scored,
      Score.ble x.1
        (score_fn (pma_finish gen clock pos d cfg tieIx t s g best).res st) =
        true := by
  cases best with
  | nil =>
    have hg : g = [] := hga.2.2.1 rfl
    rw [pma_finish_scored, hg]
    intro x hx
    simp at hx
  | cons b0 rest =>
    rw [pma_finish_scored]
    have hm : pickTie cfg.random_ties tieIx b0 (b0 :: rest) ∈ b0 :: rest :=
      pickTie_mem _ _ _ _
    have hmem := hga.2.1 _ hm
    have hbs : bs = score_fn (pickTie cfg.random_ties tieIx b0 (b0 :: rest)).2
        (pickTie cfg.random_ties tieIx b0 (b0 :: rest)).1 := hco _ hmem
    have hres : (pma_finish gen clock pos d cfg tieIx t s g (b0 :: rest)).res =
        (pickTie cfg.random_ties tieIx b0 (b0 :: rest)).2 := rfl
    have hstep : (pma_finish gen clock pos d cfg tieIx t s g (b0 :: rest)).steps =
        some (pickTie cfg.random_ties tieIx b0 (b0 :: rest)).1 := rfl
    rw [hstep] at hst
    obtain rfl : (pickTie cfg.random_ties tieIx b0 (b0 :: rest)).1 = st := by
      simpa using hst
    rw [hres, ← hbs]
    exact hga.1

theorem pma_finish_legal (gen : Gen) (clock : ℕ → ℚ) (pos : Pos) (d : ℚ)
    (cfg : PickerConfig) (tieIx t s : ℕ) (g : List (Score × Steps × Pos))
    (best : List (Steps × Pos))
    (hgen : ∀ i st2 r, gen.sample i = some (st2, r) → (r, st2) ∈ gen.moves)
    (hmob : ∀ i, gen.sample i ≠ none)
    (hbest : ∀ p ∈ best, (p.2, p.1) ∈ gen.moves) :
    (∀ st, (pma_finish gen clock pos d cfg tieIx t s g best).steps = some st →
      ((pma_finish gen clock pos d cfg tieIx t s g best).res, st) ∈ gen.moves) ∧
    ((pma_finish gen clock pos d cfg tieIx t s g best).steps = none →
      (pma_finish gen clock pos d cfg tieIx t s g best).lastCall = []) := by
  cases best with
  | nil =>
    unfold pma_finish
    dsimp only
    revert hbest
    rcases hr : (get_filtered_move_run gen clock pos d none none ⟨8, true⟩ t s).steps
      with _ | st2 <;> intro hbest <;> dsimp only
    · refine ⟨fun st hst => by simp at hst, fun _ => ?_⟩
      exact gfm_run_none_no_sample gen clock pos d none none ⟨8, true⟩ t s
        rfl hmob hr
    · refine ⟨fun st hst => ?_, fun h => by simp at h⟩
      have h2 : st2 = st := Option.some.inj hst
      subst h2
      exact gfm_run_legal gen clock pos d none none ⟨8, true⟩ t s st2 hgen hr
  | cons b0 rest =>
    have hstep : (pma_finish gen clock pos d cfg tieIx t s g (b0 :: rest)).steps =
        some (pickTie cfg.random_ties tieIx b0 (b0 :: rest)).1 := rfl
    have hres : (pma_finish gen clock pos d cfg tieIx t s g (b0 :: rest)).res =
        (pickTie cfg.random_ties tieIx b0 (b0 :: rest)).2 := rfl
    refine ⟨fun st hst => ?_, fun h => by rw [hstep] at h; simp at h⟩
    rw [hstep] at hst
    have h2 : (pickTie cfg.random_ties tieIx b0 (b0 :: rest)).1 = st :=
      Option.some.inj hst
    subst h2
    rw [hres]
    exact hbest _ (pickTie_mem _ _ _ _)

theorem pma_loop_monotone (gen : Gen) (clock : ℕ → ℚ)
    (score_fn : Pos → Steps → Score) (pos : Pos) (d : ℚ)
    (buckets : List MoveConstraints) (cfg : PickerConfig) (tieIx : ℕ) :
    ∀ (fuel bi t s : ℕ) (bs : Score) (best : List (Steps × Pos))
      (g : List (Score × Steps × Pos)),
      GoodAcc (bs, best) g →
      (∀ x ∈ g, x.1 = score_fn x.2.2 x.2.1) →
      ∀ res, pma_loop gen clock score_fn pos d buckets cfg tieIx
        fuel bi t s bs best g = some res →
      ∀ st, res.steps = some st →
      ∀ x ∈ res.scored, Score.ble x.1 (score_fn res.res st) = true
  | 0, bi, t, s, bs, best, g => by
    intro hga hco res hrun
    rw [pma_loop] at hrun
    simp at hrun
  | Nat.succ fuel, bi, t, s, bs, best, g => by
    intro hga hco res hrun st hst
    rw [pma_loop] at hrun
    by_cases hd : d ≤ clock t
    · rw [if_pos hd] at hrun
      obtain rfl := Option.some.inj hrun
      exact pma_finish_monotone gen clock score_fn pos d cfg tieIx (t + 1) s
        bs best g hga hco st hst
    · rw [if_neg hd] at hrun
      revert hrun
      rcases hb : buckets[bi]? with _ | c <;> intro hrun <;> dsimp only at hrun
      · simp at hrun
      · revert hrun
        rcases hr : (get_filtered_move_run gen clock pos d c.only_pieces
            c.only_squares ⟨max 1 cfg.max_attempts_per_bucket, true⟩
            (t + 1) s).steps with _ | st2 <;> intro hrun <;> dsimp only at hrun
        · obtain rfl := Option.some.inj hrun
          simp at hst
        · by_cases hd2 : d ≤ clock (get_filtered_move_run gen clock pos d
              c.only_pieces c.only_squares
              ⟨max 1 cfg.max_attempts_per_bucket, true⟩ (t + 1) s).t
          · rw [if_pos hd2] at hrun
            obtain rfl := Option.some.inj hrun
            refine pma_finish_monotone gen clock score_fn pos d cfg tieIx _ _
              _ _ _ (bestStep_good hga _ st2 _) ?_ st hst
            intro x hx
            rcases List.mem_append.mp hx with hx | hx
            · exact hco x hx
            · simp only [List.mem_singleton] at hx
              subst hx
              rfl
          · rw [if_neg hd2] at hrun
            refine pma_loop_monotone gen clock score_fn pos d buckets cfg tieIx
              fuel _ _ _ _ _ _ (bestStep_good hga _ st2 _) ?_ res hrun st hst
            intro x hx
            rcases List.mem_append.mp hx with hx | hx
            · exact hco x hx
            · simp only [List.mem_singleton] at hx
              subst hx
              rfl

theorem pma_loop_legal (gen : Gen) (clock : ℕ → ℚ)
    (score_fn : Pos → Steps → Score) (pos : Pos) (d : ℚ)
    (buckets : List MoveConstraints) (cfg : PickerConfig) (tieIx : ℕ)
    (hgen : ∀ i st2 r, gen.sample i = some (st2, r) → (r, st2) ∈ gen.moves)
    (hmob : ∀ i, gen.sample i ≠ none) :
    ∀ (fuel bi t s : ℕ) (bs : Score) (best : List (Steps × Pos))
      (g : List (Score × Steps × Pos)),
      (∀ p ∈ best, (p.2, p.1) ∈ gen.moves) →
      ∀ res, pma_loop gen clock score_fn pos d buckets cfg tieIx
        fuel bi t s bs best g = some res →
      (∀ st, res.steps = some st → (res.res, st) ∈ gen.moves) ∧
      (res.steps = none → res.lastCall = [])
  | 0, bi, t, s, bs, best, g => by
    intro hbest res hrun
    rw [pma_loop] at hrun
    simp at hrun
  | Nat.succ fuel, bi, t, s, bs, best, g => by
    intro hbest res hrun
    rw [pma_loop] at hrun
    by_cases hd : d ≤ clock t
    · rw [if_pos hd] at hrun
      obtain rfl := Option.some.inj hrun
      exact pma_finish_legal gen clock pos d cfg tieIx (t + 1) s g best
        hgen hmob hbest
    · rw [if_neg hd] at hrun
      revert hrun
      rcases hb : buckets[bi]? with _ | c <;> intro hrun <;> dsimp only at hrun
      · simp at hrun
      · revert hrun
        rcases hr : (get_filtered_move_run gen clock pos d c.only_pieces
            c.only_squares ⟨max 1 cfg.max_attempts_per_bucket, true⟩
            (t + 1) s).steps with _ | st2 <;> intro hrun <;> dsimp only at hrun
        · obtain rfl := Option.some.inj hrun
          refine ⟨fun st hst => by simp at hst, fun _ => ?_⟩
          exact gfm_run_none_no_sample gen clock pos d c.only_pieces
            c.only_squares ⟨max 1 cfg.max_attempts_per_bucket, true⟩ (t + 1) s
            rfl hmob hr
        · have hcand : ((get_filtered_move_run gen clock pos d c.only_pieces
              c.only_squares ⟨max 1 cfg.max_attempts_per_bucket, true⟩
              (t + 1) s).res, st2) ∈ gen.moves :=
            gfm_run_legal gen clock pos d c.only_pieces c.only_squares
              ⟨max 1 cfg.max_attempts_per_bucket, true⟩ (t + 1) s st2 hgen hr
          have hbest2 : ∀ p ∈ (bestStep (bs, best)
              (score_fn (get_filtered_move_run gen clock pos d c.only_pieces
                c.only_squares ⟨max 1 cfg.max_attempts_per_bucket, true⟩
                (t + 1) s).res st2) st2
              (get_filtered_move_run gen clock pos d c.only_pieces
                c.only_squares ⟨max 1 cfg.max_attempts_per_bucket, true⟩
                (t + 1) s).res).2, (p.2, p.1) ∈ gen.moves := by
            intro p hp
            rcases bestStep_mem _ _ _ _ p hp with hp | hp
            · exact hbest p hp
            · subst hp
              exact hcand
          by_cases hd2 : d ≤ clock (get_filtered_move_run gen clock pos d
              c.only_pieces c.only_squares
              ⟨max 1 cfg.max_attempts_per_bucket, true⟩ (t + 1) s).t
          · rw [if_pos hd2] at hrun
            obtain rfl := Option.some.inj hrun
            exact pma_finish_legal gen clock pos d cfg tieIx _ _ _ _
              hgen hmob hbest2
          · rw [if_neg hd2] at hrun
            exact pma_loop_legal gen clock score_fn pos d buckets cfg tieIx
              hgen hmob fuel _ _ _ _ _ _ hbest2 res hrun

/-- C8: in every deadline-mode run of `pick_move_anytime` that returns
a move, the score of the finally-returned move is greater than or equal
to the score of every candidate scored during that run (best-so-far
tracking: replace on strictly greater score, append on exact equality,
final pick from the equal-best set). -/
theorem picker_best_so_far_monotone (gen : Gen) (clock : ℕ → ℚ)
    (score_fn : Pos → Steps → Score) (pos : Pos) (d : ℚ)
    (cfg : PickerConfig) (bucketsOpt : Option (List MoveConstraints))
    (fuel tieIx t s : ℕ) (res : PickRes) (st : Steps)
    (hrun : pick_move_anytime gen clock score_fn pos (some d) cfg bucketsOpt
      fuel tieIx t s = some res)
    (hst : res.steps = some st) :
    ∀ x ∈ res.scored, Score.ble x.1 (score_fn res.res st) = true := by
  unfold pick_move_anytime at hrun
  dsimp only at hrun
  exact pma_loop_monotone gen clock score_fn pos d _ cfg tieIx fuel 0 t s
    Score.ninf [] [] goodAcc_init (by simp) res hrun st hst

/-- C3 (amended): in deadline mode, every move `pick_move_anytime`
returns is legal in the external generator's enumeration; and (the
correction) the picker can report the "no legal move" result on a
position with legal moves, but only when the reducer call that produced
the answer drew no sample at all — that is, when the deadline expired
before its first sampling attempt. -/
theorem pick_move_anytime_legality (gen : Gen) (clock : ℕ → ℚ)
    (score_fn : Pos → Steps → Score) (pos : Pos) (d : ℚ)
    (cfg : PickerConfig) (bucketsOpt : Option (List MoveConstraints))
    (fuel tieIx t s : ℕ) (res : PickRes)
    (hgen : ∀ i st2 r, gen.sample i = some (st2, r) → (r, st2) ∈ gen.moves)
    (hmoves : gen.moves ≠ [])
    (hmob : gen.moves ≠ [] → ∀ i, gen.sample i ≠ none)
    (hrun : pick_move_anytime gen clock score_fn pos (some d) cfg bucketsOpt
      fuel tieIx t s = some res) :
    (∀ st, res.steps = some st → (res.res, st) ∈ gen.moves) ∧
    (res.steps = none → res.lastCall = []) := by
  unfold pick_move_anytime at hrun
  dsimp only at hrun
  exact pma_loop_legal gen clock score_fn pos d _ cfg tieIx hgen
    (hmob hmoves) fuel 0 t s Score.ninf [] [] (by simp) res hrun

/-- Counterexample to C3 as stated: on a mobile position (one legal
move) with a strictly positive remaining budget at call time, a clock
that crosses the deadline between the picker's loop check and the
reducer's first sampling check makes `pick_move_anytime` return the
"no legal move" result. -/
theorem picker_deadline_race_cex :
    pick_move_anytime genC2A clockRace (fun _ _ => Score.pinf) startPos
      (some 100) defaultPickerConfig none 5 0 0 0 =
      some ⟨none, startPos, 2, 0, [], [], .immobilized⟩ ∧
    genC2A.moves ≠ [] ∧ clockRace 0 < 100 :=
  ⟨rfl, by simp [genC2A], by norm_num [clockRace]⟩

theorem genC2A_sample_legal :
    ∀ i st2 r, genC2A.sample i = some (st2, r) → (r, st2) ∈ genC2A.moves := by
  intro i st2 r h
  simp only [genC2A] at h ⊢
  rw [Option.some.injEq, Prod.mk.injEq] at h
  obtain ⟨rfl, rfl⟩ := h
  simp

/-- Witness for C3 (amended) on a concrete single-candidate run: the
returned move is in the generator's enumeration. -/
theorem pick_move_anytime_legality_witness :
    (resPickW.res, [(0, 1)]) ∈ genC2A.moves :=
  (pick_move_anytime_legality genC2A clockW (fun _ _ => Score.pinf) startPos
    100 defaultPickerConfig none 5 0 0 0 resPickW genC2A_sample_legal
    (by simp [genC2A]) (fun _ i => by simp [genC2A]) rfl).1 [(0, 1)] rfl

/-- Witness for C8 on the same concrete single-candidate run: the one
scored candidate's score is at most the returned move's score. -/
theorem picker_best_so_far_monotone_witness :
    Score.ble (Score.pinf, ([(0, 1)] : Steps), startPos).1
      ((fun (_ : Pos) (_ : Steps) => Score.pinf) resPickW.res [(0, 1)]) =
      true :=
  picker_best_so_far_monotone genC2A clockW (fun _ _ => Score.pinf) startPos
    100 defaultPickerConfig none 5 0 0 0 resPickW [(0, 1)] rfl rfl
    (Score.pinf, [(0, 1)], startPos) (by simp [resPickW])

theorem glue_loop_inv (clock : ℕ → ℚ) (from_pos : Pos) (persp : ℕ)
    (w : EvalWeights) (deadline : Option ℚ) (moves0 : List (Pos × Steps)) :
    ∀ (ms : List (Pos × Steps)) (t : ℕ) (bs : Score)
      (best : List (Steps × Pos)) (g : List (Score × Steps × Pos)),
      (∀ x ∈ ms, x ∈ moves0) →
      (∀ p ∈ best, (p.2, p.1) ∈ moves0) →
      (best = [] → bs = Score.ninf) →
      (∀ p ∈ (glue_loop clock from_pos persp w deadline ms t bs best g).2.2.1,
        (p.2, p.1) ∈ moves0) ∧
      ((glue_loop clock from_pos persp w deadline ms t bs best g).2.2.2 = [] →
        (glue_loop clock from_pos persp w deadline ms t bs best g).2.2.1 = best ∧
        g = [])
  | [], t, bs, best, g => by
    intro hsub hbest hninf
    rw [glue_loop]
    exact ⟨hbest, fun hg => ⟨rfl, hg⟩⟩
  | (r, st) :: rest, t, bs, best, g => by
    intro hsub hbest hninf
    have hcand : (r, st) ∈ moves0 := hsub (r, st) (by simp)
    have hbest2 : ∀ p ∈ (bestStep (bs, best)
        (score_move from_pos r (some st) (some persp) w) st r).2,
        (p.2, p.1) ∈ moves0 := by
      intro p hp
      rcases bestStep_mem _ _ _ _ p hp with hp | hp
      · exact hbest p hp
      · subst hp
        exact hcand
    have hne : (bestStep (bs, best)
        (score_move from_pos r (some st) (some persp) w) st r).2 ≠ [] := by
      unfold bestStep
      by_cases h1 : Score.blt bs (score_move from_pos r (some st) (some persp) w) = true
      · rw [if_pos h1]
        simp
      · rw [if_neg h1]
        by_cases h2 : score_move from_pos r (some st) (some persp) w = bs
        · rw [if_pos h2]
          simp
        · rw [if_neg h2]
          intro hnil
          have := hninf hnil
          subst this
          exact h1 (Score.blt_ninf_of_ne h2)
    have hninf2 : (bestStep (bs, best)
        (score_move from_pos r (some st) (some persp) w) st r).2 = [] →
        (bestStep (bs, best)
          (score_move from_pos r (some st) (some persp) w) st r).1 =
          Score.ninf := fun hnil => absurd hnil hne
    rw [glue_loop.eq_def]
    dsimp only
    rcases deadline with _ | d
    · dsimp only
      have := glue_loop_inv clock from_pos persp w none moves0 rest t
        (bestStep (bs, best)
          (score_move from_pos r (some st) (some persp) w) st r).1
        (bestStep (bs, best)
          (score_move from_pos r (some st) (some persp) w) st r).2
        (g ++ [(score_move from_pos r (some st) (some persp) w, st, r)])
        (fun x hx => hsub x (by simp [hx])) hbest2 hninf2
      refine ⟨this.1, fun hg => ?_⟩
      obtain ⟨_, hg2⟩ := this.2 hg
      simp at hg2
    · dsimp only
      by_cases hd : d ≤ clock t
      · rw [if_pos hd]
        exact ⟨hbest, fun hg => ⟨rfl, hg⟩⟩
      · rw [if_neg hd]
        by_cases hd2 : d ≤ clock (t + 1)
        · rw [if_pos hd2]
          refine ⟨hbest2, fun hg => ?_⟩
          simp at hg
        · rw [if_neg hd2]
          have := glue_loop_inv clock from_pos persp w (some d) moves0 rest
            (t + 2)
            (bestStep (bs, best)
              (score_move from_pos r (some st) (some persp) w) st r).1
            (bestStep (bs, best)
              (score_move from_pos r (some st) (some persp) w) st r).2
            (g ++ [(score_move from_pos r (some st) (some persp) w, st, r)])
            (fun x hx => hsub x (by simp [hx])) hbest2 hninf2
          refine ⟨this.1, fun hg => ?_⟩
          obtain ⟨_, hg2⟩ := this.2 hg
          simp at hg2

theorem glue_core (moves : List (Pos × Steps)) (hm : moves ≠ [])
    (clock : ℕ → ℚ) (cfg : GlueConfig) (pos : Pos) (deadline : Option ℚ)
    (tieIx t : ℕ) :
    (get_eval_step_move moves clock cfg pos deadline tieIx t).steps ≠ none ∧
    (∀ st, (get_eval_step_move moves clock cfg pos deadline tieIx t).steps =
        some st →
      ((get_eval_step_move moves clock cfg pos deadline tieIx t).res, st) ∈
        moves) ∧
    ((get_eval_step_move moves clock cfg pos deadline tieIx t).scored = [] →
      (get_eval_step_move moves clock cfg pos deadline tieIx t).steps =
        some (moves.head hm).2 ∧
      (get_eval_step_move moves clock cfg pos deadline tieIx t).res =
        (moves.head hm).1) := by
  cases moves with
  | nil => exact absurd rfl hm
  | cons m0 rest =>
    have hinv := glue_loop_inv clock pos
      (match cfg.perspective with | none => pos.color | some p => p)
      cfg.weights deadline (m0 :: rest) (m0 :: rest) t Score.ninf [] []
      (fun x hx => hx) (by simp) (fun _ => rfl)
    unfold get_eval_step_move
    dsimp only
    revert hinv
    rcases hbest : (glue_loop clock pos
        (match cfg.perspective with | none => pos.color | some p => p)
        cfg.weights deadline (m0 :: rest) t Score.ninf [] []).2.2.1
      with _ | ⟨b0, r2⟩ <;> intro hinv <;> dsimp only
    · refine ⟨by simp, fun st hst => ?_, fun _ => ⟨rfl, rfl⟩⟩
      have h2 : m0.2 = st := Option.some.inj hst
      subst h2
      simp
    · refine ⟨by simp, fun st hst => ?_, fun hg => ?_⟩
      · have h2 : (pickTie cfg.random_ties tieIx b0 (b0 :: r2)).1 = st :=
          Option.some.inj hst
        subst h2
        exact hinv.1 _ (pickTie_mem _ _ _ _)
      · obtain ⟨h3, _⟩ := hinv.2 hg
        simp at h3

/-- C10: for every position with at least one legal full move,
`get_eval_step_move` returns a legal (steps, resulting position) pair
from the generator's enumeration and never the "no legal move" result,
for every deadline value including already-expired deadlines; when no
candidate was scored before the deadline it deterministically falls
back to the first enumerated legal move; consequently the engine's go
path emits a move (not the empty-string branch) whenever the position
is mobile, regardless of deadline overrun. -/
theorem eval_glue_mobile_total (moves : List (Pos × Steps))
    (hm : moves ≠ []) :
    (∀ (clock : ℕ → ℚ) (cfg : GlueConfig) (pos : Pos)
      (deadline : Option ℚ) (tieIx t : ℕ),
      (get_eval_step_move moves clock cfg pos deadline tieIx t).steps ≠ none ∧
      (∀ st, (get_eval_step_move moves clock cfg pos deadline tieIx t).steps =
          some st →
        ((get_eval_step_move moves clock cfg pos deadline tieIx t).res, st) ∈
          moves) ∧
      ((get_eval_step_move moves clock cfg pos deadline tieIx t).scored = [] →
        (get_eval_step_move moves clock cfg pos deadline tieIx t).steps =
          some (moves.head hm).2 ∧
        (get_eval_step_move moves clock cfg pos deadline tieIx t).res =
          (moves.head hm).1)) ∧
    (∀ (est : EngState) (clock : ℕ → ℚ) (t tieIx : ℕ) (sm : Steps),
      est.insetup = false →
      (AEIEngine.go est moves clock t tieIx sm).1 ≠ none) := by
  refine ⟨fun clock cfg pos deadline tieIx t =>
    glue_core moves hm clock cfg pos deadline tieIx t,
    fun est clock t tieIx sm hsetup => ?_⟩
  unfold AEIEngine.go
  rw [if_neg (by simp [hsetup])]
  exact (glue_core moves hm clock defaultGlueConfig est.position _ tieIx _).1

/-- Witness for C10 at the concrete two-move enumeration: the glue
selector returns a move and the engine's go path emits one. -/
theorem eval_glue_mobile_total_witness :
    (get_eval_step_move movesC1 clockC1 defaultGlueConfig startPos (some 100)
      0 0).steps ≠ none ∧
    (AEIEngine.go estC1 movesC1 clockC1 0 0 []).1 ≠ none :=
  ⟨((eval_glue_mobile_total movesC1 (by simp [movesC1])).1 clockC1
      defaultGlueConfig startPos (some 100) 0 0).1,
    (eval_glue_mobile_total movesC1 (by simp [movesC1])).2 estC1 clockC1
      0 0 [] rfl⟩

/-- Counterexample to C1 as stated: for the same position, deadline and
clock readings, the engine-side selector `get_eval_step_move` (which is
what `go` actually calls) picks the enumeration's winning move, while
`pick_move_anytime` — fed by the rejection sampler — picks the losing
move it sampled; the go-path selection is not the Anytime Picker's
selection. -/
theorem go_path_differs_from_anytime_picker_cex :
    (get_eval_step_move movesC1 clockC1 defaultGlueConfig startPos (some 100)
      0 0).steps = some [(0, 1)] ∧
    pick_move_anytime genC1 clockC1
      (fun r st => score_move startPos r (some st) (some 0) DEFAULT_WEIGHTS)
      startPos (some 100) defaultPickerConfig none 5 0 0 0 =
      some ⟨some [(2, 3)], posLoss, 3, 1,
        [(Score.ninf, [(2, 3)], posLoss)], [], .fromBest⟩ ∧
    (some [(0, 1)] : Option Steps) ≠ some [(2, 3)] ∧
    genC1.moves = movesC1 :=
  ⟨rfl, rfl, by decide, rfl⟩

/-- C1 (amended): outside setup, the move the engine's go path emits is
selected by `get_eval_step_move` — the full-enumeration best-score
selection under the computed budget's deadline — not by the Anytime
Picker. -/
theorem go_emits_eval_glue_selection (est : EngState)
    (moves : List (Pos × Steps)) (clock : ℕ → ℚ) (t tieIx : ℕ)
    (sm : Steps) (hsetup : est.insetup = false) :
    AEIEngine.go est moves clock t tieIx sm =
      ((get_eval_step_move moves clock defaultGlueConfig est.position
        (start_move_deadline clock t (compute_budget_s est.tc_move_s
          (if est.position.color = 0 then est.reserve_gold
            else est.reserve_silver) est.tc_turntime_s)).1 tieIx
        (start_move_deadline clock t (compute_budget_s est.tc_move_s
          (if est.position.color = 0 then est.reserve_gold
            else est.reserve_silver) est.tc_turntime_s)).2).steps,
      (get_eval_step_move moves clock defaultGlueConfig est.position
        (start_move_deadline clock t (compute_budget_s est.tc_move_s
          (if est.position.color = 0 then est.reserve_gold
            else est.reserve_silver) est.tc_turntime_s)).1 tieIx
        (start_move_deadline clock t (compute_budget_s est.tc_move_s
          (if est.position.color = 0 then est.reserve_gold
            else est.reserve_silver) est.tc_turntime_s)).2).res) := by
  unfold AEIEngine.go
  rw [if_neg (by simp [hsetup])]

/-- Witness for C1 (amended) at a concrete engine state. -/
theorem go_emits_eval_glue_selection_witness :
    AEIEngine.go estC1 movesC1 clockC1 0 0 [] =
      ((get_eval_step_move movesC1 clockC1 defaultGlueConfig estC1.position
        (start_move_deadline clockC1 0 (compute_budget_s estC1.tc_move_s
          (if estC1.position.color = 0 then estC1.reserve_gold
            else estC1.reserve_silver) estC1.tc_turntime_s)).1 0
        (start_move_deadline clockC1 0 (compute_budget_s estC1.tc_move_s
          (if estC1.position.color = 0 then estC1.reserve_gold
            else estC1.reserve_silver) estC1.tc_turntime_s)).2).steps,
      (get_eval_step_move movesC1 clockC1 defaultGlueConfig estC1.position
        (start_move_deadline clockC1 0 (compute_budget_s estC1.tc_move_s
          (if estC1.position.color = 0 then estC1.reserve_gold
            else estC1.reserve_silver) estC1.tc_turntime_s)).1 0
        (start_move_deadline clockC1 0 (compute_budget_s estC1.tc_move_s
          (if estC1.position.color = 0 then estC1.reserve_gold
            else estC1.reserve_silver) estC1.tc_turntime_s)).2).res) :=
  go_emits_eval_glue_selection estC1 movesC1 clockC1 0 0 [] rfl
